import Mathlib

/-!
# Verification of the diffly CSV diff engine

Shallow embedding of the `diffly-core` and `diffly-engine` crates
(`src/diffly-rust/diffly-core/src/lib.rs`, `src/diffly-rust/diffly-engine/src/lib.rs`).

Modelling conventions:
* Rust `BTreeMap<String, String>` rows are modelled as association lists kept
  sorted by key (`buildMap` folds `mapInsert`, mirroring successive
  `map.insert(k, v)` calls).  `serde_json::Map` (the default `BTreeMap`
  backend) is modelled the same way.
* CSV inputs are taken after the CSV lexer: a header record (list of cells)
  plus the list of data records (each a list of cells).  File I/O, the CSV
  dialect itself and `csv_open_error` are outside the embedding; everything
  from `normalize_header` on is translated.
* The spill store (`TempDirSpill`) becomes explicit state: a partition count
  plus a map from (side, partition id) to the optional list of records whose
  file exists.  Records are stored structurally; the JSON-lines round trip of
  `spill_json_record` / `read_spill_records` is the identity on the
  `SpillRecord` shape.
* The run driver is instantiated with the `NeverCancel` probe and a collecting
  sink that always accepts, so it returns the delivered event sequence.
* Machine integers (`u64` in the FNV hash) are `Nat` with explicit `% 2 ^ 64`.
-/

instance {ε α : Type} [DecidableEq ε] [DecidableEq α] : DecidableEq (Except ε α) := fun x y =>
  match x, y with
  | .ok a, .ok b =>
    if h : a = b then isTrue (by rw [h]) else isFalse (fun hc => h (Except.ok.inj hc))
  | .error a, .error b =>
    if h : a = b then isTrue (by rw [h]) else isFalse (fun hc => h (Except.error.inj hc))
  | .ok _, .error _ => isFalse (fun hc => Except.noConfusion hc)
  | .error _, .ok _ => isFalse (fun hc => Except.noConfusion hc)

/-- Rust `HeaderMode` (diffly-core). -/
inductive HeaderMode where
  | strict
  | sorted
deriving DecidableEq, Repr

/-- Rust `DiffOptions` (diffly-core). -/
structure DiffOptions where
  key_columns : List String
  header_mode : HeaderMode
  emit_unchanged : Bool
deriving DecidableEq, Repr

/-- Rust `DiffError` (diffly-core): a stable code plus a human-readable message. -/
structure DiffError where
  code : String
  message : String
deriving DecidableEq, Repr

/-- A row: `BTreeMap<String, String>` modelled as a key-sorted association list. -/
abbrev Row := List (String × String)

/-- Lexicographic strict order on lists, from a strict order on elements
(Rust's derived `Ord` on `Vec<_>` and on `str`/`String`). -/
def lexLtB {α : Type} (ltb : α → α → Bool) : List α → List α → Bool
  | [], [] => false
  | [], _ :: _ => true
  | _ :: _, [] => false
  | a :: as, b :: bs => if ltb a b then true else if ltb b a then false else lexLtB ltb as bs

/-- Strict order on characters by code point.  For valid UTF-8 this coincides
with Rust's byte-wise `str` order. -/
def charLtB (a b : Char) : Bool :=
  a.toNat < b.toNat

/-- Rust `String` order: lexicographic on the character sequence. -/
def strLtB (a b : String) : Bool :=
  lexLtB charLtB a.data b.data

/-- Non-strict `String` order. -/
def strLeB (a b : String) : Bool :=
  !strLtB b a

/-- Rust `Vec<String>` order: lexicographic on the parts. -/
def keyLtB (a b : List String) : Bool :=
  lexLtB strLtB a b

/-- Non-strict key-tuple order. -/
def keyLeB (a b : List String) : Bool :=
  !keyLtB b a

/-- `BTreeMap::insert`: insert into a key-sorted association list, replacing an
existing binding of the same key. -/
def mapInsert {α : Type} (k : String) (v : α) : List (String × α) → List (String × α)
  | [] => [(k, v)]
  | (k', v') :: rest =>
    if strLtB k k' then (k, v) :: (k', v') :: rest
    else if k = k' then (k, v) :: rest
    else (k', v') :: mapInsert k v rest

/-- Build a `BTreeMap` by inserting the pairs in order (the Rust
`for (k, v) in ... { map.insert(k, v) }` loop). -/
def buildMap {α : Type} (l : List (String × α)) : List (String × α) :=
  l.foldl (fun m kv => mapInsert kv.1 kv.2 m) []

/-- `BTreeMap::get` / `HashMap::get`: lookup in an association list. -/
def assocGet {κ α : Type} [DecidableEq κ] (m : List (κ × α)) (k : κ) : Option α :=
  match m with
  | [] => none
  | (k', v) :: rest => if k = k' then some v else assocGet rest k

/-- Left-biased choice on options (used to state lookup lemmas). -/
def optOr {α : Type} : Option α → Option α → Option α
  | some v, _ => some v
  | none, b => b

/-- The row object built from a header and a CSV record
(core `read_csv_reader`'s row loop and engine `record_to_json_object`). -/
def mkRow (header : List String) (record : List String) : Row :=
  buildMap (header.zip record)

/-- Render one character of a JSON string (serde_json string escaping). -/
def escapeJsonChar (c : Char) : String :=
  if c = '"' then "\\\""
  else if c = '\\' then "\\\\"
  else if c = '\n' then "\\n"
  else if c = '\r' then "\\r"
  else if c = '\t' then "\\t"
  else if c.toNat < 32 then
    let hexDigit : Nat → String := fun n =>
      if n < 10 then toString n
      else if n = 10 then "a" else if n = 11 then "b" else if n = 12 then "c"
      else if n = 13 then "d" else if n = 14 then "e" else "f"
    "\\u00" ++ hexDigit (c.toNat / 16) ++ hexDigit (c.toNat % 16)
  else String.singleton c

/-- Render a JSON string literal (serde_json `Display`). -/
def renderJsonString (s : String) : String :=
  "\"" ++ String.join (s.data.map escapeJsonChar) ++ "\""

/-- Render a JSON object of string values, compact (serde_json `Display` of a
`Value::Object`; the backing `BTreeMap` iterates in key order, which our
`Row` representation already is). -/
def renderJsonObject (m : Row) : String :=
  "\x7b" ++ String.intercalate "," (m.map (fun kv => renderJsonString kv.1 ++ ":" ++ renderJsonString kv.2)) ++ "\x7d"

/-- Rust `Debug` rendering of a `Vec<String>` (used in header-mismatch messages). -/
def renderStringListDebug (l : List String) : String :=
  "[" ++ String.intercalate ", " (l.map renderJsonString) ++ "]"

/-- Core `validate_header` loop body: scan for the first repeated column name. -/
def validateHeaderGo (side : String) (seen : List String) : List String → Except DiffError Unit
  | [] => .ok ()
  | name :: rest =>
    if name ∈ seen then
      .error ⟨"duplicate_column_name", s!"Duplicate column name in {side}: {name}"⟩
    else validateHeaderGo side (name :: seen) rest

/-- Core/engine `validate_header`: reject headers with duplicate column names. -/
def validate_header (header : List String) (side : String) : Except DiffError Unit :=
  validateHeaderGo side [] header

/-- Core/engine `normalize_header`: strip a UTF-8 BOM from the first header cell. -/
def normalize_header (header : List String) : List String :=
  match header with
  | [] => []
  | first :: rest =>
    if first.startsWith "\uFEFF" then (first.drop 1) :: rest else first :: rest

/-- Row-reading loop of core `read_csv_reader`: enforce the width of every
record against the header and build the indexed rows (1-based CSV row index,
header is row 1). -/
def readRowsGo (side : String) (width : Nat) (header : List String) :
    Nat → List (List String) → Except DiffError (List (Nat × Row))
  | _, [] => .ok []
  | row_index, record :: rest =>
    if record.length ≠ width then
      .error ⟨"row_width_mismatch",
        s!"Row width mismatch in {side} at CSV row {row_index}: expected {width}, got {record.length}"⟩
    else do
      let tail ← readRowsGo side width header (row_index + 1) rest
      .ok ((row_index, mkRow header record) :: tail)

/-- Core `read_csv_reader` after the CSV lexer: BOM normalisation, header
validation, width checks, indexed-row construction.  The `empty_file` and
`csv_parse_error` cases live in the lexer boundary and are outside the
embedding. -/
def read_csv_reader (header_record : List String) (records : List (List String))
    (side : String) : Except DiffError (List String × List (Nat × Row)) := do
  let header := normalize_header header_record
  validate_header header side
  let rows ← readRowsGo side header.length header 2 records
  .ok (header, rows)

/-- Sort a list of strings (Rust `Vec::sort` on `Vec<String>`). -/
def sortStrings (l : List String) : List String :=
  l.insertionSort (fun a b => strLeB a b = true)

/-- Sort a list of key tuples (Rust `Vec::sort` on `Vec<Vec<String>>`,
lexicographic on the key parts). -/
def sortKeys (l : List (List String)) : List (List String) :=
  l.insertionSort (fun a b => keyLeB a b = true)

/-- Core/engine `comparison_columns`: strict mode requires equal headers;
sorted mode requires equal multisets and compares in sorted order. -/
def comparison_columns (a_header b_header : List String) (header_mode : HeaderMode) :
    Except DiffError (List String) :=
  match header_mode with
  | .strict =>
    if a_header ≠ b_header then
      .error ⟨"header_mismatch",
        s!"Header mismatch: A={renderStringListDebug a_header} B={renderStringListDebug b_header}"⟩
    else .ok a_header
  | .sorted =>
    let a_sorted := sortStrings a_header
    let b_sorted := sortStrings b_header
    if a_sorted ≠ b_sorted then
      .error ⟨"header_mismatch",
        s!"Header mismatch (sorted mode): A={renderStringListDebug a_header} B={renderStringListDebug b_header}"⟩
    else .ok a_sorted

/-- Core `key_tuple`: the ordered sequence of key-column values of a row. -/
def key_tuple (row : Row) (key_columns : List String) : List String :=
  key_columns.map (fun column => (assocGet row column).getD "")

/-- Core/engine `key_object`: the JSON object pairing key columns with key values. -/
def key_object (key_columns : List String) (key_tuple_value : List String) : Row :=
  buildMap (key_columns.zip key_tuple_value)

/-- The `missing_key_value` error message. -/
def missingKeyValueMsg (side : String) (row_index : Nat) (key_column : String) : String :=
  s!"Missing key value in {side} at CSV row {row_index} for key column \x27{key_column}\x27"

/-- The `duplicate_key` error message, citing the two CSV row indices in
encounter order. -/
def duplicateKeyMsg (side : String) (key_columns key : List String) (prior current : Nat) : String :=
  s!"Duplicate key in {side}: {renderJsonObject (key_object key_columns key)} (rows {prior} and {current})"

/-- Per-row key validation inside core `index_rows`: every key column must be
present and non-empty. -/
def checkRowKeys (side : String) (row_index : Nat) (row : Row) :
    List String → Except DiffError Unit
  | [] => .ok ()
  | key_column :: rest =>
    match assocGet row key_column with
    | none => .error ⟨"missing_key_column", s!"Missing key column: {key_column}"⟩
    | some value =>
      if value = "" then
        .error ⟨"missing_key_value", missingKeyValueMsg side row_index key_column⟩
      else checkRowKeys side row_index row rest

/-- The in-memory key index: key tuple to (CSV row index, row). -/
abbrev CoreIndex := List (List String × Nat × Row)

/-- Loop body of core `index_rows`. -/
def indexRowsGo (key_columns : List String) (side : String) (indexed : CoreIndex) :
    List (Nat × Row) → Except DiffError CoreIndex
  | [] => .ok indexed
  | (row_index, row) :: rest => do
    checkRowKeys side row_index row key_columns
    let key := key_tuple row key_columns
    match assocGet indexed key with
    | some (prior_row, _) =>
      .error ⟨"duplicate_key", duplicateKeyMsg side key_columns key prior_row row_index⟩
    | none => indexRowsGo key_columns side (indexed ++ [(key, row_index, row)]) rest

/-- Core `index_rows`: index one side by key tuple, failing on duplicates. -/
def index_rows (rows : List (Nat × Row)) (key_columns : List String) (side : String) :
    Except DiffError CoreIndex :=
  indexRowsGo key_columns side [] rows

/-- Stats counters maintained by the diff cores. -/
structure Counts where
  rows_total_compared : Nat
  rows_added : Nat
  rows_removed : Nat
  rows_changed : Nat
  rows_unchanged : Nat
deriving DecidableEq, Repr

def Counts.zero : Counts := ⟨0, 0, 0, 0, 0⟩

/-- The engine's event stream, one constructor per JSON event shape.
Keyed body events carry the key object; positional ones carry `row_index`. -/
inductive Event where
  | schema (columns_a columns_b : List String)
  | added (key : Row) (row : Row)
  | removed (key : Row) (row : Row)
  | changed (key : Row) (changed_columns : List String) (before after : Row)
      (delta : List (String × String × String))
  | unchanged (key : Row) (row : Row)
  | addedAt (row_index : Nat) (row : Row)
  | removedAt (row_index : Nat) (row : Row)
  | changedAt (row_index : Nat) (changed_columns : List String) (before after : Row)
      (delta : List (String × String × String))
  | unchangedAt (row_index : Nat) (row : Row)
  | progress (phase : String) (events_done events_total : Nat)
  | stats (c : Counts)
deriving DecidableEq, Repr

/-- The changed-column list of a compared pair (shared by all four diff loops):
comparison columns on which the two rows differ, in comparison order. -/
def changedColumns (compare_columns : List String) (row_a row_b : Row) : List String :=
  compare_columns.filter (fun column => assocGet row_a column ≠ assocGet row_b column)

/-- The `delta` object of a changed event: each changed column mapped to its
from/to values (`serde_json::Map` built by insertion, i.e. a `BTreeMap`). -/
def deltaMap (changed_columns : List String) (row_a row_b : Row) :
    List (String × String × String) :=
  buildMap (changed_columns.map (fun column =>
    (column, ((assocGet row_a column).getD "", (assocGet row_b column).getD ""))))

/-- Per-key body of the core keyed loop: look the key up on both sides, emit
the matching event(s) and bump the counters. -/
def keyedStep (key_columns compare_columns : List String) (emit_unchanged : Bool)
    (indexed_a indexed_b : CoreIndex) (acc : List Event × Counts) (key : List String) :
    List Event × Counts :=
  let key_obj := key_object key_columns key
  match assocGet indexed_a key, assocGet indexed_b key with
  | none, some (_, row_b) =>
    (acc.1 ++ [.added key_obj row_b], { acc.2 with rows_added := acc.2.rows_added + 1 })
  | some (_, row_a), none =>
    (acc.1 ++ [.removed key_obj row_a], { acc.2 with rows_removed := acc.2.rows_removed + 1 })
  | some (_, row_a), some (_, row_b) =>
    let acc2 := { acc.2 with rows_total_compared := acc.2.rows_total_compared + 1 }
    let changed_columns := changedColumns compare_columns row_a row_b
    if changed_columns.isEmpty then
      if emit_unchanged then
        (acc.1 ++ [.unchanged key_obj row_a],
         { acc2 with rows_unchanged := acc2.rows_unchanged + 1 })
      else (acc.1, { acc2 with rows_unchanged := acc2.rows_unchanged + 1 })
    else
      (acc.1 ++ [.changed key_obj changed_columns row_a row_b
          (deltaMap changed_columns row_a row_b)],
       { acc2 with rows_changed := acc2.rows_changed + 1 })
  | none, none => acc

/-- Core `diff_rows_keyed`: reconcile headers, check key columns, index both
sides, then emit one event per key of the sorted key union, between a schema
event and a stats event. -/
def diff_rows_keyed (a_header : List String) (a_rows : List (Nat × Row))
    (b_header : List String) (b_rows : List (Nat × Row)) (options : DiffOptions) :
    Except DiffError (List Event) := do
  let compare_columns ← comparison_columns a_header b_header options.header_mode
  match options.key_columns.find? (fun kc => !(a_header.contains kc && b_header.contains kc)) with
  | some key_column => .error ⟨"missing_key_column", s!"Missing key column: {key_column}"⟩
  | none => do
    let indexed_a ← index_rows a_rows options.key_columns "A"
    let indexed_b ← index_rows b_rows options.key_columns "B"
    let all_keys := sortKeys ((indexed_a.map Prod.fst ++ indexed_b.map Prod.fst).dedup)
    let init : List Event × Counts := ([Event.schema a_header b_header], Counts.zero)
    let res := all_keys.foldl
      (keyedStep options.key_columns compare_columns options.emit_unchanged indexed_a indexed_b)
      init
    .ok (res.1 ++ [Event.stats res.2])

/-- Per-index body of the core positional loop. -/
def positionalStep (compare_columns : List String) (emit_unchanged : Bool)
    (a_rows b_rows : List (Nat × Row)) (acc : List Event × Counts) (idx : Nat) :
    List Event × Counts :=
  let row_index := idx + 2
  match a_rows.get? idx, b_rows.get? idx with
  | none, some (_, row_b) =>
    (acc.1 ++ [.addedAt row_index row_b], { acc.2 with rows_added := acc.2.rows_added + 1 })
  | some (_, row_a), none =>
    (acc.1 ++ [.removedAt row_index row_a], { acc.2 with rows_removed := acc.2.rows_removed + 1 })
  | some (_, row_a), some (_, row_b) =>
    let acc2 := { acc.2 with rows_total_compared := acc.2.rows_total_compared + 1 }
    let changed_columns := changedColumns compare_columns row_a row_b
    if changed_columns.isEmpty then
      if emit_unchanged then
        (acc.1 ++ [.unchangedAt row_index row_a],
         { acc2 with rows_unchanged := acc2.rows_unchanged + 1 })
      else (acc.1, { acc2 with rows_unchanged := acc2.rows_unchanged + 1 })
    else
      (acc.1 ++ [.changedAt row_index changed_columns row_a row_b
          (deltaMap changed_columns row_a row_b)],
       { acc2 with rows_changed := acc2.rows_changed + 1 })
  | none, none => acc

/-- Core `diff_rows_positional`: match rows by zero-based position. -/
def diff_rows_positional (a_header : List String) (a_rows : List (Nat × Row))
    (b_header : List String) (b_rows : List (Nat × Row)) (options : DiffOptions) :
    Except DiffError (List Event) := do
  let compare_columns ← comparison_columns a_header b_header options.header_mode
  let total_rows := max a_rows.length b_rows.length
  let init : List Event × Counts := ([Event.schema a_header b_header], Counts.zero)
  let res := (List.range total_rows).foldl
    (positionalStep compare_columns options.emit_unchanged a_rows b_rows) init
  .ok (res.1 ++ [Event.stats res.2])

/-- Core `diff_csv_files` after the CSV lexer: read both sides, dispatch on
whether `key_columns` is empty. -/
def diff_csv_input (a_header_record : List String) (a_records : List (List String))
    (b_header_record : List String) (b_records : List (List String))
    (options : DiffOptions) : Except DiffError (List Event) := do
  let (a_header, a_rows) ← read_csv_reader a_header_record a_records "A"
  let (b_header, b_rows) ← read_csv_reader b_header_record b_records "B"
  if options.key_columns.isEmpty then
    diff_rows_positional a_header a_rows b_header b_rows options
  else
    diff_rows_keyed a_header a_rows b_header b_rows options

/-- UTF-8 encoding of one character (the byte sequence Rust's `str::as_bytes`
exposes), as natural numbers below 256. -/
def utf8EncodeChar (c : Char) : List Nat :=
  let n := c.toNat
  if n < 0x80 then [n]
  else if n < 0x800 then [0xC0 ||| (n >>> 6), 0x80 ||| (n &&& 0x3F)]
  else if n < 0x10000 then
    [0xE0 ||| (n >>> 12), 0x80 ||| ((n >>> 6) &&& 0x3F), 0x80 ||| (n &&& 0x3F)]
  else
    [0xF0 ||| (n >>> 18), 0x80 ||| ((n >>> 12) &&& 0x3F),
     0x80 ||| ((n >>> 6) &&& 0x3F), 0x80 ||| (n &&& 0x3F)]

/-- UTF-8 bytes of a string. -/
def utf8Bytes (s : String) : List Nat :=
  (s.data.map utf8EncodeChar).flatten

def FNV_OFFSET_BASIS : Nat := 14695981039346656037

def FNV_PRIME : Nat := 1099511628211

def KEY_DELIMITER : Nat := 0x1f

/-- One FNV-1a step: xor the byte in, multiply by the prime, wrap at 64 bits
(`u64::wrapping_mul`). -/
def fnvStep (hash byte : Nat) : Nat :=
  ((hash ^^^ byte) * FNV_PRIME) % 2 ^ 64

/-- Loop of engine `stable_key_hash`: absorb each part's bytes, and a single
`0x1F` separator between consecutive parts (`idx + 1 < key_parts.len()`). -/
def stableKeyHashGo (hash : Nat) : List String → Nat
  | [] => hash
  | [part] => (utf8Bytes part).foldl fnvStep hash
  | part :: next :: rest =>
    stableKeyHashGo (fnvStep ((utf8Bytes part).foldl fnvStep hash) KEY_DELIMITER) (next :: rest)

/-- Engine `stable_key_hash`: 64-bit FNV-1a over the key tuple. -/
def stable_key_hash (key_parts : List String) : Nat :=
  stableKeyHashGo FNV_OFFSET_BASIS key_parts

/-- Engine `partition_for_key`: `hash mod max(1, partitions)`. -/
def partition_for_key (key_parts : List String) (partitions : Nat) : Nat :=
  stable_key_hash key_parts % max partitions 1

/-- The spill-record envelope `{ key, row_index, row }`. -/
structure SpillRecord where
  key : List String
  row_index : Nat
  row : Row
deriving DecidableEq, Repr

/-- Rust `EngineError` (diffly-engine). -/
inductive EngineError where
  | diff (e : DiffError)
  | cancelled
  | sink (msg : String)
  | storage (msg : String)
deriving DecidableEq, Repr

/-- Engine `diff_error` helper. -/
def diff_error (code message : String) : EngineError :=
  .diff ⟨code, message⟩

/-- The spill store `TempDirSpill`: a partition count and, per (side,
partition id), the optional contents of the `{side}_{partition_id}.jsonl`
file (`none` when the file was never created).  Records are stored
structurally; the JSON-lines serialisation is the identity on this shape. -/
structure TempDirSpill where
  partitions : Nat
  files : String → Nat → Option (List SpillRecord)

/-- Engine `TempDirSpill::new`: a fresh store with no files; zero partitions
are rejected with a storage error. -/
def TempDirSpill.new (partitions : Nat) : Except EngineError TempDirSpill :=
  if partitions = 0 then
    .error (.storage "partitions must be greater than zero")
  else
    .ok ⟨partitions, fun _ _ => none⟩

/-- Engine `TempDirSpill::validate`: the side must be `a` or `b` and the
partition id in range. -/
def TempDirSpill.validate (spill : TempDirSpill) (side : String) (partition_id : Nat) :
    Except EngineError Unit :=
  if side ≠ "a" && side ≠ "b" then
    .error (.storage s!"invalid side: {side}")
  else if partition_id ≥ spill.partitions then
    .error (.storage s!"partition out of range: {partition_id} (total {spill.partitions})")
  else
    .ok ()

/-- Engine `TempDirSpill::append_line` composed with the JSON encoding done in
`spill_json_record`: validate, create the file on first use, append the
record. -/
def TempDirSpill.append (spill : TempDirSpill) (side : String) (partition_id : Nat)
    (record : SpillRecord) : Except EngineError TempDirSpill := do
  spill.validate side partition_id
  .ok { spill with
        files := fun s p =>
          if s = side ∧ p = partition_id then
            some ((spill.files s p).getD [] ++ [record])
          else spill.files s p }

/-- Engine `spill_json_record`: route the record to its key's partition,
append it, return the partition id. -/
def spill_json_record (spill : TempDirSpill) (side : String) (key_parts : List String)
    (record : SpillRecord) : Except EngineError (TempDirSpill × Nat) := do
  let partition_id := partition_for_key key_parts spill.partitions
  let spill' ← spill.append side partition_id record
  .ok (spill', partition_id)

/-- Engine `read_spill_records`: validate side and partition id; a missing
file reads as the empty record list; an existing file yields its records
(the JSON-lines parse, the identity in this model). -/
def read_spill_records (spill : TempDirSpill) (side : String) (partition_id : Nat) :
    Except EngineError (List SpillRecord) := do
  spill.validate side partition_id
  match spill.files side partition_id with
  | none => .ok []
  | some records => .ok records

/-- Engine `read_header` after the CSV lexer: BOM normalisation plus header
validation, wrapped into `EngineError`. -/
def read_header (header_record : List String) (side : String) :
    Except EngineError (List String) := do
  let header := normalize_header header_record
  (validate_header header side).mapError EngineError.diff
  .ok header

/-- Rust `iter().position(...)` over a header: the index of the first
occurrence of a column name. -/
def positionOf (header : List String) (column : String) : Option Nat :=
  match header with
  | [] => none
  | h :: rest => if h = column then some 0 else (positionOf rest column).map (· + 1)

/-- Engine `key_indices`: the position of each key column in the header,
short-circuiting at the first missing column (`collect::<Result<...>>`). -/
def key_indices (header : List String) : List String → Except EngineError (List Nat)
  | [] => .ok []
  | key_column :: rest =>
    match positionOf header key_column with
    | some idx => do
      let idxs ← key_indices header rest
      .ok (idx :: idxs)
    | none => .error (diff_error "missing_key_column" s!"Missing key column: {key_column}")

/-- Key extraction of the planner's row loop: for each key index / key column
pair, the cell at that index, rejecting empty values. -/
def planKeyParts (side_label : String) (row_index : Nat) (record : List String) :
    List (Nat × String) → Except EngineError (List String)
  | [] => .ok []
  | p :: rest =>
    let value := (record[p.1]?).getD ""
    if value = "" then
      .error (diff_error "missing_key_value" (missingKeyValueMsg side_label row_index p.2))
    else do
      let values ← planKeyParts side_label row_index record rest
      .ok (value :: values)

/-- Row loop of engine `partition_one_side`: width check, key extraction,
spill append, per-partition count bump. -/
def partitionRowsGo (side_tag side_label : String) (header : List String)
    (key_columns : List String) (key_indexes : List Nat) (width : Nat)
    (spill : TempDirSpill) (partition_counts : List Nat) (row_count row_index : Nat) :
    List (List String) → Except EngineError (TempDirSpill × List Nat × Nat)
  | [] => .ok (spill, partition_counts, row_count)
  | record :: rest =>
    if record.length ≠ width then
      .error (diff_error "row_width_mismatch"
        s!"Row width mismatch in {side_label} at CSV row {row_index}: expected {width}, got {record.length}")
    else do
      let key_parts ← planKeyParts side_label row_index record (key_indexes.zip key_columns)
      let row_value := mkRow header record
      let (spill', partition_id) ←
        spill_json_record spill side_tag key_parts ⟨key_parts, row_index, row_value⟩
      let partition_counts' := partition_counts.set partition_id
        ((partition_counts.getD partition_id 0) + 1)
      partitionRowsGo side_tag side_label header key_columns key_indexes width
        spill' partition_counts' (row_count + 1) (row_index + 1) rest

/-- Engine `partition_one_side`: stream one side's records into the spill. -/
def partition_one_side (records : List (List String)) (side_tag side_label : String)
    (header : List String) (key_columns : List String) (key_indexes : List Nat)
    (spill : TempDirSpill) (partition_counts : List Nat) :
    Except EngineError (TempDirSpill × List Nat × Nat) :=
  partitionRowsGo side_tag side_label header key_columns key_indexes header.length
    spill partition_counts 0 2 records

/-- Engine `PartitionManifest`. -/
structure PartitionManifest where
  spill : TempDirSpill
  columns_a : List String
  columns_b : List String
  compare_columns : List String
  row_count_a : Nat
  row_count_b : Nat
  partition_rows_a : List Nat
  partition_rows_b : List Nat

/-- Engine `partition_inputs_to_spill` after the CSV lexer: read and reconcile
headers, resolve key indices, create the spill, stream both sides. -/
def partition_inputs_to_spill (a_header_record : List String)
    (a_records : List (List String)) (b_header_record : List String)
    (b_records : List (List String)) (options : DiffOptions) (partitions : Nat) :
    Except EngineError PartitionManifest := do
  let columns_a ← read_header a_header_record "A"
  let columns_b ← read_header b_header_record "B"
  let compare_columns ←
    (comparison_columns columns_a columns_b options.header_mode).mapError EngineError.diff
  let key_indices_a ← key_indices columns_a options.key_columns
  let key_indices_b ← key_indices columns_b options.key_columns
  let spill ← TempDirSpill.new partitions
  let (spill, partition_rows_a, row_count_a) ← partition_one_side a_records "a" "A"
    columns_a options.key_columns key_indices_a spill (List.replicate partitions 0)
  let (spill, partition_rows_b, row_count_b) ← partition_one_side b_records "b" "B"
    columns_b options.key_columns key_indices_b spill (List.replicate partitions 0)
  .ok ⟨spill, columns_a, columns_b, compare_columns, row_count_a, row_count_b,
       partition_rows_a, partition_rows_b⟩

/-- The per-partition key index of the spill path. -/
abbrev SpillIndex := List (List String × SpillRecord)

/-- Loop body of engine `index_spill_records`. -/
def indexSpillGo (key_columns : List String) (side : String) (indexed : SpillIndex) :
    List SpillRecord → Except EngineError SpillIndex
  | [] => .ok indexed
  | record :: rest =>
    match assocGet indexed record.key with
    | some prior =>
      .error (diff_error "duplicate_key"
        (duplicateKeyMsg side key_columns record.key prior.row_index record.row_index))
    | none => indexSpillGo key_columns side (indexed ++ [(record.key, record)]) rest

/-- Engine `index_spill_records`: index one partition's records by key tuple,
failing on duplicates. -/
def index_spill_records (records : List SpillRecord) (key_columns : List String)
    (side : String) : Except EngineError SpillIndex :=
  indexSpillGo key_columns side [] records

/-- Per-key body of the partitioned keyed loop (engine
`diff_partitioned_from_manifest`), identical in structure to the in-memory
`keyedStep` but over spill records. -/
def spillKeyedStep (key_columns compare_columns : List String) (emit_unchanged : Bool)
    (indexed_a indexed_b : SpillIndex) (acc : List Event × Counts) (key : List String) :
    List Event × Counts :=
  let key_obj := key_object key_columns key
  match assocGet indexed_a key, assocGet indexed_b key with
  | none, some record_b =>
    (acc.1 ++ [.added key_obj record_b.row], { acc.2 with rows_added := acc.2.rows_added + 1 })
  | some record_a, none =>
    (acc.1 ++ [.removed key_obj record_a.row],
     { acc.2 with rows_removed := acc.2.rows_removed + 1 })
  | some record_a, some record_b =>
    let acc2 := { acc.2 with rows_total_compared := acc.2.rows_total_compared + 1 }
    let changed_columns := changedColumns compare_columns record_a.row record_b.row
    if changed_columns.isEmpty then
      if emit_unchanged then
        (acc.1 ++ [.unchanged key_obj record_a.row],
         { acc2 with rows_unchanged := acc2.rows_unchanged + 1 })
      else (acc.1, { acc2 with rows_unchanged := acc2.rows_unchanged + 1 })
    else
      (acc.1 ++ [.changed key_obj changed_columns record_a.row record_b.row
          (deltaMap changed_columns record_a.row record_b.row)],
       { acc2 with rows_changed := acc2.rows_changed + 1 })
  | none, none => acc

/-- One partition of engine `diff_partitioned_from_manifest`: read and index
both sides, sort the key union, emit per-key events. -/
def diffPartitionStep (manifest : PartitionManifest) (options : DiffOptions)
    (acc : List Event × Counts) (partition_id : Nat) :
    Except EngineError (List Event × Counts) := do
  let records_a ← read_spill_records manifest.spill "a" partition_id
  let indexed_a ← index_spill_records records_a options.key_columns "A"
  let records_b ← read_spill_records manifest.spill "b" partition_id
  let indexed_b ← index_spill_records records_b options.key_columns "B"
  let all_keys := sortKeys ((indexed_a.map Prod.fst ++ indexed_b.map Prod.fst).dedup)
  .ok (all_keys.foldl
    (spillKeyedStep options.key_columns manifest.compare_columns options.emit_unchanged
      indexed_a indexed_b)
    acc)

/-- Engine `diff_partitioned_from_manifest`: schema event, per-partition keyed
diffs in ascending partition-id order, stats event. -/
def diff_partitioned_from_manifest (manifest : PartitionManifest)
    (options : DiffOptions) : Except EngineError (List Event) := do
  let init : List Event × Counts :=
    ([Event.schema manifest.columns_a manifest.columns_b], Counts.zero)
  let res ← (List.range manifest.spill.partitions).foldlM
    (diffPartitionStep manifest options) init
  .ok (res.1 ++ [Event.stats res.2])

/-- Rust `EngineRunConfig` (diffly-engine).  Note: the struct has only these
two fields; there is no partition count. -/
structure EngineRunConfig where
  emit_progress : Bool
  progress_interval_events : Nat
deriving DecidableEq, Repr

/-- `EngineRunConfig::default`. -/
def EngineRunConfig.default : EngineRunConfig :=
  ⟨false, 1000⟩

/-- Engine `emit_progress`: the progress frame delivered to the sink. -/
def progressEvent (events_done events_total : Nat) : Event :=
  .progress "emit_events" events_done events_total

/-- The delivery loop of `run_keyed_to_sink_with_config`, instantiated with
the `NeverCancel` probe and a sink that always accepts: each event is
delivered, followed by a progress frame when enabled and the count of
delivered events reaches the total or a multiple of the interval. -/
def deliverLoop (emitP : Bool) (interval total : Nat) (idx : Nat) :
    List Event → List Event
  | [] => []
  | e :: rest =>
    let done := idx + 1
    e :: ((if emitP && (done == total || done % interval == 0)
           then [progressEvent done total] else [])
      ++ deliverLoop emitP interval total done rest)

/-- Engine `run_keyed_to_sink_with_config` (with `NeverCancel` and an
always-accepting collecting sink): run the in-memory diff
(`diff_csv_files`), then deliver its events with optional progress frames.
The returned list is the exact sequence delivered to the sink. -/
def run_keyed_to_sink_with_config (a_header_record : List String)
    (a_records : List (List String)) (b_header_record : List String)
    (b_records : List (List String)) (options : DiffOptions)
    (run_config : EngineRunConfig) : Except EngineError (List Event) := do
  let events ←
    (diff_csv_input a_header_record a_records b_header_record b_records options).mapError
      EngineError.diff
  let total_events := events.length
  let interval := max run_config.progress_interval_events 1
  let head := if run_config.emit_progress then [progressEvent 0 total_events] else []
  .ok (head ++ deliverLoop run_config.emit_progress interval total_events 0 events)

/-- Engine `run_keyed_to_sink`: the default run configuration. -/
def run_keyed_to_sink (a_header_record : List String) (a_records : List (List String))
    (b_header_record : List String) (b_records : List (List String))
    (options : DiffOptions) : Except EngineError (List Event) :=
  run_keyed_to_sink_with_config a_header_record a_records b_header_record b_records
    options EngineRunConfig.default

/-! ## Specification-side definitions and proof helpers -/

/-- Componentwise addition of stats counters. -/
def Counts.add (c d : Counts) : Counts :=
  ⟨c.rows_total_compared + d.rows_total_compared, c.rows_added + d.rows_added,
   c.rows_removed + d.rows_removed, c.rows_changed + d.rows_changed,
   c.rows_unchanged + d.rows_unchanged⟩

/-- Componentwise sum of a list of counters. -/
def Counts.sumList (l : List Counts) : Counts :=
  ⟨(l.map (·.rows_total_compared)).sum, (l.map (·.rows_added)).sum,
   (l.map (·.rows_removed)).sum, (l.map (·.rows_changed)).sum,
   (l.map (·.rows_unchanged)).sum⟩

/-- The keyed per-key event, as §4.6 of the specification describes it:
`added` if the key is present only in B, `removed` if only in A, `changed`
if present in both with a differing comparison column, `unchanged` (emitted
only when `emit_unchanged` is set) otherwise. -/
def perKeyEvent (key_columns compare_columns : List String) (emit_unchanged : Bool)
    (in_a in_b : Option Row) (key : List String) : Option Event :=
  match in_a, in_b with
  | none, some row_b => some (.added (key_object key_columns key) row_b)
  | some row_a, none => some (.removed (key_object key_columns key) row_a)
  | some row_a, some row_b =>
    let changed_columns := changedColumns compare_columns row_a row_b
    if changed_columns.isEmpty then
      if emit_unchanged then some (.unchanged (key_object key_columns key) row_a) else none
    else
      some (.changed (key_object key_columns key) changed_columns row_a row_b
        (deltaMap changed_columns row_a row_b))
  | none, none => none

/-- The stats-counter contribution of one compared key (or row position). -/
def perKeyCounts (compare_columns : List String) (in_a in_b : Option Row) : Counts :=
  match in_a, in_b with
  | none, some _ => ⟨0, 1, 0, 0, 0⟩
  | some _, none => ⟨0, 0, 1, 0, 0⟩
  | some row_a, some row_b =>
    if (changedColumns compare_columns row_a row_b).isEmpty then ⟨1, 0, 0, 0, 1⟩
    else ⟨1, 0, 0, 1, 0⟩
  | none, none => ⟨0, 0, 0, 0, 0⟩

/-- The positional per-index event (§4.7): like the keyed one but carrying
`row_index` instead of a key. -/
def perIdxEvent (compare_columns : List String) (emit_unchanged : Bool)
    (in_a in_b : Option Row) (row_index : Nat) : Option Event :=
  match in_a, in_b with
  | none, some row_b => some (.addedAt row_index row_b)
  | some row_a, none => some (.removedAt row_index row_a)
  | some row_a, some row_b =>
    let changed_columns := changedColumns compare_columns row_a row_b
    if changed_columns.isEmpty then
      if emit_unchanged then some (.unchangedAt row_index row_a) else none
    else
      some (.changedAt row_index changed_columns row_a row_b
        (deltaMap changed_columns row_a row_b))
  | none, none => none

/-- The unique indexed row of a side carrying a given key tuple. -/
def findRow (rows : List (Nat × Row)) (key_columns : List String) (key : List String) :
    Option (Nat × Row) :=
  rows.find? (fun e => key_tuple e.2 key_columns == key)

/-- The unique spill record of a partition carrying a given key tuple. -/
def findSpill (records : List SpillRecord) (key : List String) : Option SpillRecord :=
  records.find? (fun r => r.key == key)

/-- The spill records the partition planner derives from a side's indexed
rows. -/
def rowsEntries (key_columns : List String) (rows : List (Nat × Row)) : List SpillRecord :=
  rows.map (fun e => ⟨key_tuple e.2 key_columns, e.1, e.2⟩)

/-- Pure effect of one successful `TempDirSpill::append_line`. -/
def appendRecord (spill : TempDirSpill) (side : String) (partition_id : Nat)
    (record : SpillRecord) : TempDirSpill :=
  { spill with
    files := fun s p =>
      if s = side ∧ p = partition_id then
        some ((spill.files s p).getD [] ++ [record])
      else spill.files s p }

/-- Pure effect of spilling a list of records for one side. -/
def spillAfter (spill : TempDirSpill) (side : String) (partitions : Nat)
    (entries : List SpillRecord) : TempDirSpill :=
  entries.foldl (fun sp e => appendRecord sp side (partition_for_key e.key partitions) e) spill

/-- The contents of one spill file after appending `new`, given its previous
contents. -/
def combineFile (old : Option (List SpillRecord)) (new : List SpillRecord) :
    Option (List SpillRecord) :=
  match old, new with
  | none, [] => none
  | _, _ => some (old.getD [] ++ new)

/-- Body events are `added` / `removed` / `changed` / `unchanged`, keyed or
positional (§GLOSSARY). -/
def Event.isBody : Event → Bool
  | .added _ _ | .removed _ _ | .changed _ _ _ _ _ | .unchanged _ _ => true
  | .addedAt _ _ | .removedAt _ _ | .changedAt _ _ _ _ _ | .unchangedAt _ _ => true
  | _ => false

def Event.isProgress : Event → Bool
  | .progress _ _ _ => true
  | _ => false

def Event.isSchema : Event → Bool
  | .schema _ _ => true
  | _ => false

def Event.isStats : Event → Bool
  | .stats _ => true
  | _ => false

/-- The body events of an event sequence. -/
def bodyEvents (l : List Event) : List Event :=
  l.filter (fun e => e.isBody)

/-- The stats events of an event sequence. -/
def statsEvents (l : List Event) : List Event :=
  l.filter (fun e => e.isStats)

/-- The A↔B swap on events (§8 symmetry): `added` ↔ `removed`, `changed`
swaps before/after and each delta's from/to, `schema` swaps its column lists,
`stats` swaps the added/removed counters. -/
def swapEvent : Event → Event
  | .schema ca cb => .schema cb ca
  | .added k r => .removed k r
  | .removed k r => .added k r
  | .changed k cc before after delta =>
    .changed k cc after before (delta.map (fun d => (d.1, d.2.2, d.2.1)))
  | .unchanged k r => .unchanged k r
  | .addedAt i r => .removedAt i r
  | .removedAt i r => .addedAt i r
  | .changedAt i cc before after delta =>
    .changedAt i cc after before (delta.map (fun d => (d.1, d.2.2, d.2.1)))
  | .unchangedAt i r => .unchangedAt i r
  | .progress ph n t => .progress ph n t
  | .stats c => .stats ⟨c.rows_total_compared, c.rows_removed, c.rows_added,
      c.rows_changed, c.rows_unchanged⟩

/-- A valid keyed side (§3 invariants): no duplicate column names, every
record as wide as the header, every key column present with a non-empty value
in every row, and no two rows sharing a key tuple. -/
abbrev ValidKeyedSide (header : List String) (records : List (List String))
    (key_columns : List String) : Prop :=
  header.Nodup ∧
  (∀ c ∈ key_columns, c ∈ header) ∧
  (∀ rec ∈ records, rec.length = header.length) ∧
  (∀ rec ∈ records, ∀ c ∈ key_columns, (assocGet (mkRow header rec) c).getD "" ≠ "") ∧
  (records.map (fun rec => key_tuple (mkRow header rec) key_columns)).Nodup

/-- The indexed rows the CSV reader produces from `records`, starting at CSV
row `i`. -/
def indexedRows (header : List String) (i : Nat) : List (List String) → List (Nat × Row)
  | [] => []
  | record :: rest => (i, mkRow header record) :: indexedRows header (i + 1) rest

/-- FNV-1a over a byte sequence, as §4.3 of the specification words it. -/
def fnv1a64 (bytes : List Nat) : Nat :=
  bytes.foldl fnvStep FNV_OFFSET_BASIS

/-- The byte sequence §4.3 describes: the parts' UTF-8 bytes concatenated
with a single `0x1F` between consecutive parts. -/
def keyHashBytes : List (List Nat) → List Nat
  | [] => []
  | [b] => b
  | b :: rest => b ++ KEY_DELIMITER :: keyHashBytes rest

/-- Claim C4's shape predicate on the delivered sequence: first delivered
event is the schema event and last delivered event is the stats event. -/
def startsSchemaEndsStats (d : List Event) : Bool :=
  (match d.head? with | some (.schema _ _) => true | _ => false) &&
  (match d.getLast? with | some (.stats _) => true | _ => false)

/-- The number of progress frames claim C5 predicts: one before the first
body event, one after every `interval` body events, one after the final
event. -/
def claimC5FrameCount (bodyCount interval : Nat) : Nat :=
  1 + bodyCount / interval + 1

/-- The amended progress interleaving: a frame with `events_done = 0` first,
then after the `(i+1)`-st delivered event (schema and stats included in the
count) a frame carrying `events_done = i+1` exactly when `i+1` is the total
or a multiple of the interval; all frames carry `phase = "emit_events"` and
`events_total` = number of planned events including schema and stats. -/
def specProgressInterleaving (events : List Event) (interval : Nat) : List Event :=
  progressEvent 0 events.length ::
    (events.enum.map (fun p =>
      p.2 :: (if p.1 + 1 = events.length ∨ (p.1 + 1) % interval = 0
              then [progressEvent (p.1 + 1) events.length] else []))).flatten

/-- The non-progress events: what remains of a delivered sequence once the
driver's progress frames are stripped. -/
def notProgress (e : Event) : Bool :=
  !(e.isProgress)

/-- The A↔B swap on stats counters: added and removed exchange. -/
def swapCounts (c : Counts) : Counts :=
  ⟨c.rows_total_compared, c.rows_removed, c.rows_added, c.rows_changed,
   c.rows_unchanged⟩

/-- The keys carried by the `changed` events of a sequence (§8: the set of
keys with changes). -/
def changedKeys (l : List Event) : List Row :=
  l.filterMap (fun e => match e with
    | .changed k _ _ _ _ => some k
    | _ => none)

/-! ## Order theory for the comparators -/

theorem lexLtB_irrefl {α : Type} (ltb : α → α → Bool) (hirr : ∀ a, ltb a a = false) :
    ∀ l, lexLtB ltb l l = false
  | [] => rfl
  | a :: as => by simp [lexLtB, hirr a, lexLtB_irrefl ltb hirr as]

theorem lexLtB_conn {α : Type} (ltb : α → α → Bool)
    (hconn : ∀ a b, ltb a b = false → ltb b a = false → a = b) :
    ∀ l₁ l₂, lexLtB ltb l₁ l₂ = false → lexLtB ltb l₂ l₁ = false → l₁ = l₂
  | [], [], _, _ => rfl
  | [], _ :: _, h₁, _ => by simp [lexLtB] at h₁
  | _ :: _, [], _, h₂ => by simp [lexLtB] at h₂
  | a :: as, b :: bs, h₁, h₂ => by
    by_cases hab : ltb a b = true
    · simp [lexLtB, hab] at h₁
    · by_cases hba : ltb b a = true
      · simp [lexLtB, hba] at h₂
      · simp only [Bool.not_eq_true] at hab hba
        simp only [lexLtB, hab, hba, if_false] at h₁ h₂
        rw [hconn a b hab hba, lexLtB_conn ltb hconn as bs h₁ h₂]

theorem lexLtB_trans {α : Type} (ltb : α → α → Bool)
    (hirr : ∀ a, ltb a a = false)
    (htr : ∀ a b c, ltb a b = true → ltb b c = true → ltb a c = true)
    (hconn : ∀ a b, ltb a b = false → ltb b a = false → a = b) :
    ∀ l₁ l₂ l₃, lexLtB ltb l₁ l₂ = true → lexLtB ltb l₂ l₃ = true →
      lexLtB ltb l₁ l₃ = true
  | l₁, [], _, h₁, _ => by cases l₁ <;> simp [lexLtB] at h₁
  | [], _ :: _, [], _, h₂ => by simp [lexLtB] at h₂
  | [], _ :: _, _ :: _, _, _ => by simp [lexLtB]
  | a :: as, b :: bs, c :: cs, h₁, h₂ => by
    by_cases hab : ltb a b = true
    · by_cases hbc : ltb b c = true
      · simp [lexLtB, htr a b c hab hbc]
      · by_cases hcb : ltb c b = true
        · simp only [Bool.not_eq_true] at hbc
          simp [lexLtB, hbc, hcb] at h₂
        · simp only [Bool.not_eq_true] at hbc hcb
          have : b = c := hconn b c hbc hcb
          subst this
          simp [lexLtB, hab]
    · by_cases hba : ltb b a = true
      · simp only [Bool.not_eq_true] at hab
        simp [lexLtB, hab, hba] at h₁
      · simp only [Bool.not_eq_true] at hab hba
        have : a = b := hconn a b hab hba
        subst this
        simp only [lexLtB, hab, hba, if_false] at h₁
        by_cases hbc : ltb a c = true
        · simp [lexLtB, hbc]
        · by_cases hcb : ltb c a = true
          · simp only [Bool.not_eq_true] at hbc
            simp [lexLtB, hbc, hcb] at h₂
          · simp only [Bool.not_eq_true] at hbc hcb
            have : a = c := hconn a c hbc hcb
            subst this
            simp only [lexLtB, hirr a, if_false] at h₂ ⊢
            exact lexLtB_trans ltb hirr htr hconn as bs cs h₁ h₂

theorem charLtB_irrefl (a : Char) : charLtB a a = false := by
  simp [charLtB]

theorem charLtB_trans (a b c : Char) (h₁ : charLtB a b = true) (h₂ : charLtB b c = true) :
    charLtB a c = true := by
  simp only [charLtB, decide_eq_true_eq] at h₁ h₂ ⊢
  omega

theorem charLtB_conn (a b : Char) (h₁ : charLtB a b = false) (h₂ : charLtB b a = false) :
    a = b := by
  simp only [charLtB, decide_eq_false_iff_not, Nat.not_lt] at h₁ h₂
  have h : a.toNat = b.toNat := le_antisymm h₂ h₁
  exact Char.eq_of_val_eq (by
    apply UInt32.eq_of_toBitVec_eq
    apply BitVec.eq_of_toNat_eq
    simpa [Char.toNat, UInt32.toNat] using h)

theorem strLtB_irrefl (a : String) : strLtB a a = false :=
  lexLtB_irrefl charLtB charLtB_irrefl a.data

theorem strLtB_trans (a b c : String) (h₁ : strLtB a b = true) (h₂ : strLtB b c = true) :
    strLtB a c = true :=
  lexLtB_trans charLtB charLtB_irrefl charLtB_trans charLtB_conn a.data b.data c.data h₁ h₂

theorem strLtB_conn (a b : String) (h₁ : strLtB a b = false) (h₂ : strLtB b a = false) :
    a = b := by
  have h := lexLtB_conn charLtB charLtB_conn a.data b.data h₁ h₂
  cases a; cases b; exact congrArg String.mk (by simpa using h)

theorem keyLtB_irrefl (a : List String) : keyLtB a a = false :=
  lexLtB_irrefl strLtB strLtB_irrefl a

theorem keyLtB_trans (a b c : List String) (h₁ : keyLtB a b = true) (h₂ : keyLtB b c = true) :
    keyLtB a c = true :=
  lexLtB_trans strLtB strLtB_irrefl strLtB_trans strLtB_conn a b c h₁ h₂

theorem keyLtB_conn (a b : List String) (h₁ : keyLtB a b = false) (h₂ : keyLtB b a = false) :
    a = b :=
  lexLtB_conn strLtB strLtB_conn a b h₁ h₂

theorem keyLtB_asymm (a b : List String) (h : keyLtB a b = true) : keyLtB b a = false := by
  by_contra hc
  simp only [Bool.not_eq_false] at hc
  have := keyLtB_trans a b a h hc
  rw [keyLtB_irrefl] at this
  exact Bool.false_ne_true this

theorem keyLeB_total (a b : List String) : keyLeB a b = true ∨ keyLeB b a = true := by
  by_cases h : keyLtB b a = true
  · right
    simp [keyLeB, keyLtB_asymm b a h]
  · left
    simp only [Bool.not_eq_true] at h
    simp [keyLeB, h]

theorem keyLeB_trans (a b c : List String) (h₁ : keyLeB a b = true) (h₂ : keyLeB b c = true) :
    keyLeB a c = true := by
  simp only [keyLeB, Bool.not_eq_true'] at h₁ h₂ ⊢
  by_contra hc
  simp only [Bool.not_eq_false] at hc
  by_cases hab : keyLtB a b = true
  · have := keyLtB_trans c a b hc hab
    rw [h₂] at this
    exact Bool.false_ne_true this
  · simp only [Bool.not_eq_true] at hab
    have : a = b := keyLtB_conn a b hab h₁
    subst this
    rw [h₂] at hc
    exact Bool.false_ne_true hc

theorem keyLeB_antisymm (a b : List String) (h₁ : keyLeB a b = true) (h₂ : keyLeB b a = true) :
    a = b := by
  simp only [keyLeB, Bool.not_eq_true'] at h₁ h₂
  exact keyLtB_conn a b h₂ h₁

theorem strLtB_asymm (a b : String) (h : strLtB a b = true) : strLtB b a = false := by
  by_contra hc
  simp only [Bool.not_eq_false] at hc
  have := strLtB_trans a b a h hc
  rw [strLtB_irrefl] at this
  exact Bool.false_ne_true this

theorem strLeB_total (a b : String) : strLeB a b = true ∨ strLeB b a = true := by
  by_cases h : strLtB b a = true
  · right
    simp [strLeB, strLtB_asymm b a h]
  · left
    simp only [Bool.not_eq_true] at h
    simp [strLeB, h]

theorem strLeB_trans (a b c : String) (h₁ : strLeB a b = true) (h₂ : strLeB b c = true) :
    strLeB a c = true := by
  simp only [strLeB, Bool.not_eq_true'] at h₁ h₂ ⊢
  by_contra hc
  simp only [Bool.not_eq_false] at hc
  by_cases hab : strLtB a b = true
  · have := strLtB_trans c a b hc hab
    rw [h₂] at this
    exact Bool.false_ne_true this
  · simp only [Bool.not_eq_true] at hab
    have : a = b := strLtB_conn a b hab h₁
    subst this
    rw [h₂] at hc
    exact Bool.false_ne_true hc

theorem strLeB_antisymm (a b : String) (h₁ : strLeB a b = true) (h₂ : strLeB b a = true) :
    a = b := by
  simp only [strLeB, Bool.not_eq_true'] at h₁ h₂
  exact strLtB_conn a b h₂ h₁

theorem sortKeys_perm (l : List (List String)) : List.Perm (sortKeys l) l :=
  List.perm_insertionSort _ l

theorem sortKeys_sorted (l : List (List String)) :
    List.Sorted (fun a b => keyLeB a b = true) (sortKeys l) := by
  haveI : IsTotal (List String) (fun a b => keyLeB a b = true) := ⟨keyLeB_total⟩
  haveI : IsTrans (List String) (fun a b => keyLeB a b = true) :=
    ⟨fun a b c => keyLeB_trans a b c⟩
  exact List.sorted_insertionSort _ l

theorem sortKeys_eq_of_perm {l₁ l₂ : List (List String)} (h : List.Perm l₁ l₂) :
    sortKeys l₁ = sortKeys l₂ := by
  haveI : IsAntisymm (List String) (fun a b => keyLeB a b = true) :=
    ⟨fun a b => keyLeB_antisymm a b⟩
  exact List.eq_of_perm_of_sorted
    (((sortKeys_perm l₁).trans h).trans (sortKeys_perm l₂).symm)
    (sortKeys_sorted l₁) (sortKeys_sorted l₂)

theorem sortStrings_perm (l : List String) : List.Perm (sortStrings l) l :=
  List.perm_insertionSort _ l

theorem sortStrings_sorted (l : List String) :
    List.Sorted (fun a b => strLeB a b = true) (sortStrings l) := by
  haveI : IsTotal String (fun a b => strLeB a b = true) := ⟨strLeB_total⟩
  haveI : IsTrans String (fun a b => strLeB a b = true) :=
    ⟨fun a b c => strLeB_trans a b c⟩
  exact List.sorted_insertionSort _ l

theorem sortStrings_eq_of_perm {l₁ l₂ : List String} (h : List.Perm l₁ l₂) :
    sortStrings l₁ = sortStrings l₂ := by
  haveI : IsAntisymm String (fun a b => strLeB a b = true) :=
    ⟨fun a b => strLeB_antisymm a b⟩
  exact List.eq_of_perm_of_sorted
    (((sortStrings_perm l₁).trans h).trans (sortStrings_perm l₂).symm)
    (sortStrings_sorted l₁) (sortStrings_sorted l₂)

/-! ## Association-list and `BTreeMap` model lemmas -/

theorem optOr_some {α : Type} (v : α) (b : Option α) : optOr (some v) b = some v := rfl

theorem optOr_none {α : Type} (b : Option α) : optOr none b = b := rfl

theorem assocGet_append {κ α : Type} [DecidableEq κ] (l m : List (κ × α)) (k : κ) :
    assocGet (l ++ m) k = optOr (assocGet l k) (assocGet m k) := by
  induction l with
  | nil => simp [assocGet, optOr]
  | cons p rest ih =>
    by_cases h : k = p.1
    · simp [assocGet, h, optOr]
    · simp [assocGet, h, ih]

theorem assocGet_mapInsert {α : Type} (k k' : String) (v : α) (m : List (String × α)) :
    assocGet (mapInsert k v m) k' = if k' = k then some v else assocGet m k' := by
  induction m with
  | nil => simp [mapInsert, assocGet]
  | cons p rest ih =>
    simp only [mapInsert]
    by_cases hlt : strLtB k p.1
    · simp [hlt, assocGet]
    · simp only [hlt, Bool.false_eq_true, if_false]
      by_cases heq : k = p.1
      · simp only [if_pos heq]
        by_cases h' : k' = k
        · simp [assocGet, h']
        · have h'' : ¬ k' = p.1 := fun hc => h' (hc.trans heq.symm)
          simp [assocGet, h', h'']
      · simp only [if_neg heq]
        by_cases h' : k' = p.1
        · have hk : ¬ k' = k := fun hc => heq (hc.symm.trans h')
          have hk2 : ¬ p.1 = k := fun hc => heq hc.symm
          simp [assocGet, h', hk, hk2]
        · simp [assocGet, h', ih]

theorem assocGet_foldl_insert {α : Type} (l : List (String × α)) (m : List (String × α))
    (k : String) :
    assocGet (l.foldl (fun acc kv => mapInsert kv.1 kv.2 acc) m) k =
      optOr (assocGet l.reverse k) (assocGet m k) := by
  induction l generalizing m with
  | nil => simp [assocGet, optOr]
  | cons p rest ih =>
    simp only [List.foldl_cons, List.reverse_cons, ih, assocGet_append]
    cases hr : assocGet rest.reverse k with
    | some v => simp [optOr]
    | none =>
      simp only [optOr_none]
      by_cases h : k = p.1 <;> simp [assocGet, h, assocGet_mapInsert, optOr]

theorem assocGet_buildMap {α : Type} (l : List (String × α)) (k : String) :
    assocGet (buildMap l) k = assocGet l.reverse k := by
  rw [buildMap, assocGet_foldl_insert]
  cases assocGet l.reverse k <;> simp [assocGet, optOr]

theorem assocGet_eq_none_iff {κ α : Type} [DecidableEq κ] (l : List (κ × α)) (k : κ) :
    assocGet l k = none ↔ k ∉ l.map Prod.fst := by
  induction l with
  | nil => simp [assocGet]
  | cons p rest ih =>
    by_cases h : k = p.1
    · simp [assocGet, h]
    · simp [assocGet, h, ih]

theorem assocGet_mem {κ α : Type} [DecidableEq κ] {l : List (κ × α)} {k : κ} {v : α}
    (h : assocGet l k = some v) : (k, v) ∈ l := by
  induction l with
  | nil => simp [assocGet] at h
  | cons p rest ih =>
    obtain ⟨pk, pv⟩ := p
    by_cases hk : k = pk
    · simp only [assocGet, if_pos hk] at h
      cases h
      subst hk
      exact List.mem_cons_self _ _
    · simp only [assocGet, if_neg hk] at h
      exact List.mem_cons_of_mem _ (ih h)

theorem assocGet_reverse_of_nodup {κ α : Type} [DecidableEq κ] (l : List (κ × α))
    (hnd : (l.map Prod.fst).Nodup) (k : κ) : assocGet l.reverse k = assocGet l k := by
  induction l with
  | nil => rfl
  | cons p rest ih =>
    simp only [List.map_cons, List.nodup_cons] at hnd
    have hrev := ih hnd.2
    simp only [List.reverse_cons, assocGet_append, hrev]
    by_cases h : k = p.1
    · subst h
      have hnone : assocGet rest p.1 = none := by
        rw [assocGet_eq_none_iff]
        exact hnd.1
      simp [assocGet, hnone, optOr]
    · cases hr : assocGet rest k <;> simp [assocGet, h, hr, optOr]

theorem assocGet_buildMap_of_nodup {α : Type} (l : List (String × α))
    (hnd : (l.map Prod.fst).Nodup) (k : String) : assocGet (buildMap l) k = assocGet l k := by
  rw [assocGet_buildMap, assocGet_reverse_of_nodup l hnd]

theorem mapInsert_map_value {α β : Type} (g : α → β) (k : String) (v : α)
    (m : List (String × α)) :
    mapInsert k (g v) (m.map (fun kv => (kv.1, g kv.2))) =
      (mapInsert k v m).map (fun kv => (kv.1, g kv.2)) := by
  induction m with
  | nil => simp [mapInsert]
  | cons p rest ih =>
    simp only [List.map_cons, mapInsert]
    by_cases hlt : strLtB k p.1
    · simp [hlt]
    · simp only [hlt, Bool.false_eq_true, if_false]
      by_cases heq : k = p.1
      · simp [heq]
      · simp [heq, ih]

theorem buildMap_map_value {α β : Type} (g : α → β) (l : List (String × α)) :
    buildMap (l.map (fun kv => (kv.1, g kv.2))) =
      (buildMap l).map (fun kv => (kv.1, g kv.2)) := by
  simp only [buildMap]
  rw [show (([] : List (String × β)) = ([] : List (String × α)).map (fun kv => (kv.1, g kv.2)))
    from rfl]
  generalize ([] : List (String × α)) = m
  induction l generalizing m with
  | nil => simp
  | cons p rest ih =>
    simp only [List.map_cons, List.foldl_cons]
    rw [mapInsert_map_value, ih]

/-! ## Sorted-map extensionality and header/position lemmas -/

theorem mem_mapInsert {α : Type} {x : String × α} {k : String} {v : α} :
    ∀ {m : List (String × α)}, x ∈ mapInsert k v m → x = (k, v) ∨ x ∈ m := by
  intro m
  induction m with
  | nil =>
    intro h
    simp only [mapInsert] at h
    rcases List.mem_cons.mp h with h1 | h1
    · exact Or.inl h1
    · exact Or.inr h1
  | cons p rest ih =>
    intro h
    simp only [mapInsert] at h
    split at h
    · rcases List.mem_cons.mp h with h1 | h1
      · exact Or.inl h1
      · exact Or.inr h1
    · split at h
      · rcases List.mem_cons.mp h with h1 | h1
        · exact Or.inl h1
        · exact Or.inr (List.mem_cons_of_mem _ h1)
      · rcases List.mem_cons.mp h with h1 | h1
        · exact Or.inr (by simp [h1])
        · rcases ih h1 with h2 | h2
          · exact Or.inl h2
          · exact Or.inr (List.mem_cons_of_mem _ h2)

theorem mapInsert_pairwise {α : Type} (k : String) (v : α) (m : List (String × α))
    (hp : m.Pairwise (fun a b => strLtB a.1 b.1 = true)) :
    (mapInsert k v m).Pairwise (fun a b => strLtB a.1 b.1 = true) := by
  induction m with
  | nil => simp [mapInsert]
  | cons p rest ih =>
    simp only [List.pairwise_cons] at hp
    simp only [mapInsert]
    by_cases hlt : strLtB k p.1
    · simp only [hlt, if_pos]
      refine List.Pairwise.cons ?_ (List.Pairwise.cons hp.1 hp.2)
      intro x hx
      rcases List.mem_cons.mp hx with h1 | h1
      · rw [h1]
        exact hlt
      · exact strLtB_trans _ _ _ hlt (hp.1 x h1)
    · simp only [hlt, Bool.false_eq_true, if_false]
      by_cases heq : k = p.1
      · simp only [if_pos heq]
        exact List.Pairwise.cons (fun x hx => heq ▸ hp.1 x hx) hp.2
      · simp only [if_neg heq]
        have hpk : strLtB p.1 k = true := by
          by_contra hc
          simp only [Bool.not_eq_true] at hc hlt
          exact heq (strLtB_conn k p.1 hlt hc)
        refine List.Pairwise.cons ?_ (ih hp.2)
        intro x hx
        rcases mem_mapInsert hx with h' | h'
        · rw [h']
          exact hpk
        · exact hp.1 x h'

theorem buildMap_pairwise {α : Type} (l : List (String × α)) :
    (buildMap l).Pairwise (fun a b => strLtB a.1 b.1 = true) := by
  simp only [buildMap]
  have hbase : (([] : List (String × α))).Pairwise (fun a b => strLtB a.1 b.1 = true) :=
    List.Pairwise.nil
  generalize hm : ([] : List (String × α)) = m at hbase ⊢
  clear hm
  induction l generalizing m with
  | nil => exact hbase
  | cons p rest ih => exact ih _ (mapInsert_pairwise p.1 p.2 m hbase)

theorem assocGet_eq_none_of_all_lt {α : Type} {m : List (String × α)} {x : String}
    (hall : ∀ p ∈ m, strLtB x p.1 = true) : assocGet m x = none := by
  rw [assocGet_eq_none_iff]
  intro hmem
  rcases List.mem_map.mp hmem with ⟨p, hpmem, hpk⟩
  have hx := hall p hpmem
  rw [hpk, strLtB_irrefl] at hx
  exact Bool.false_ne_true hx

theorem map_ext_pairwise {α : Type} :
    ∀ (m₁ m₂ : List (String × α)),
      m₁.Pairwise (fun a b => strLtB a.1 b.1 = true) →
      m₂.Pairwise (fun a b => strLtB a.1 b.1 = true) →
      (∀ k, assocGet m₁ k = assocGet m₂ k) → m₁ = m₂
  | [], [], _, _, _ => rfl
  | [], (k₂, v₂) :: t₂, _, _, hget => by
    have h := hget k₂
    simp [assocGet] at h
  | (k₁, v₁) :: t₁, [], _, _, hget => by
    have h := hget k₁
    simp [assocGet] at h
  | (k₁, v₁) :: t₁, (k₂, v₂) :: t₂, hp₁, hp₂, hget => by
    simp only [List.pairwise_cons] at hp₁ hp₂
    have hkk : k₁ = k₂ := by
      by_contra hne
      by_cases hlt : strLtB k₁ k₂
      · have h₁ : assocGet ((k₁, v₁) :: t₁) k₁ = some v₁ := by simp [assocGet]
        have h₂ : assocGet ((k₂, v₂) :: t₂) k₁ = none := by
          apply assocGet_eq_none_of_all_lt
          intro p hpm
          rcases List.mem_cons.mp hpm with h' | h'
          · rw [h']
            exact hlt
          · exact strLtB_trans _ _ _ hlt (hp₂.1 p h')
        rw [hget k₁, h₂] at h₁
        exact Option.noConfusion h₁
      · have hlt' : strLtB k₂ k₁ = true := by
          by_contra hc
          simp only [Bool.not_eq_true] at hc hlt
          exact hne (strLtB_conn k₁ k₂ hlt hc)
        have h₁ : assocGet ((k₂, v₂) :: t₂) k₂ = some v₂ := by simp [assocGet]
        have h₂ : assocGet ((k₁, v₁) :: t₁) k₂ = none := by
          apply assocGet_eq_none_of_all_lt
          intro p hpm
          rcases List.mem_cons.mp hpm with h' | h'
          · rw [h']
            exact hlt'
          · exact strLtB_trans _ _ _ hlt' (hp₁.1 p h')
        rw [← hget k₂, h₂] at h₁
        exact Option.noConfusion h₁
    subst hkk
    have hvv : v₁ = v₂ := by
      have h := hget k₁
      simpa [assocGet] using h
    subst hvv
    have htail : ∀ k, assocGet t₁ k = assocGet t₂ k := by
      intro k
      by_cases hk : k = k₁
      · subst hk
        have e₁ : assocGet t₁ k = none := by
          rw [assocGet_eq_none_iff]
          intro hmem
          rcases List.mem_map.mp hmem with ⟨p, hpmem, hpk⟩
          have hx := hp₁.1 p hpmem
          rw [hpk, strLtB_irrefl] at hx
          exact Bool.false_ne_true hx
        have e₂ : assocGet t₂ k = none := by
          rw [assocGet_eq_none_iff]
          intro hmem
          rcases List.mem_map.mp hmem with ⟨p, hpmem, hpk⟩
          have hx := hp₂.1 p hpmem
          rw [hpk, strLtB_irrefl] at hx
          exact Bool.false_ne_true hx
        rw [e₁, e₂]
      · have h := hget k
        simpa [assocGet, hk] using h
    rw [map_ext_pairwise t₁ t₂ hp₁.2 hp₂.2 htail]

theorem zip_map_fst_sublist {α β : Type} :
    ∀ (a : List α) (b : List β), List.Sublist ((a.zip b).map Prod.fst) a
  | [], _ => by simp
  | _ :: _, [] => by simp
  | x :: xs, y :: ys => by
    simpa [List.zip_cons_cons] using List.Sublist.cons₂ x (zip_map_fst_sublist xs ys)

theorem mkRow_get (header : List String) (record : List String) (hnd : header.Nodup)
    (c : String) : assocGet (mkRow header record) c = assocGet (header.zip record) c := by
  apply assocGet_buildMap_of_nodup
  exact (zip_map_fst_sublist header record).nodup hnd

theorem assocGet_zip_positionOf (header : List String) :
    ∀ (record : List String) (c : String),
      assocGet (header.zip record) c = (positionOf header c).bind (fun i => record[i]?) := by
  induction header with
  | nil => intro record c; simp [assocGet, positionOf]
  | cons h hs ih =>
    intro record c
    cases record with
    | nil =>
      rw [show (h :: hs).zip ([] : List String) = [] from rfl]
      simp only [assocGet, positionOf]
      by_cases hc : h = c
      · simp [hc]
      · cases hp : positionOf hs c <;> simp [hp, hc]
    | cons r rs =>
      rw [show (h :: hs).zip (r :: rs) = (h, r) :: hs.zip rs from rfl]
      simp only [assocGet, positionOf]
      by_cases hc : c = h
      · simp [hc]
      · have hc' : ¬ h = c := fun hx => hc hx.symm
        simp only [if_neg hc, if_neg hc', ih rs c]
        cases hp : positionOf hs c <;> simp [hp]

theorem positionOf_eq_none_iff (header : List String) (c : String) :
    positionOf header c = none ↔ c ∉ header := by
  induction header with
  | nil => simp [positionOf]
  | cons h hs ih =>
    by_cases hc : h = c
    · simp [positionOf, hc]
    · have hch : ¬ c = h := fun hx => hc hx.symm
      cases hp : positionOf hs c with
      | none =>
        have hnot : c ∉ hs := ih.mp hp
        simp [positionOf, hc, hp, hch, hnot]
      | some i =>
        have hmem : c ∈ hs := by
          by_contra hnot
          rw [ih.mpr hnot] at hp
          exact Option.noConfusion hp
        simp [positionOf, hc, hp, hmem]

theorem positionOf_isSome_of_mem {header : List String} {c : String} (h : c ∈ header) :
    ∃ i, positionOf header c = some i := by
  cases hp : positionOf header c with
  | none => exact absurd h ((positionOf_eq_none_iff header c).mp hp)
  | some i => exact ⟨i, rfl⟩

/-! ## Counters and loop characterizations -/

theorem Counts.add_zero (c : Counts) : c.add ⟨0, 0, 0, 0, 0⟩ = c := by
  cases c
  simp [Counts.add]

theorem Counts.add_assoc (a b c : Counts) : (a.add b).add c = a.add (b.add c) := by
  cases a
  cases b
  cases c
  simp [Counts.add, Nat.add_assoc]

theorem Counts.sumList_nil : Counts.sumList [] = ⟨0, 0, 0, 0, 0⟩ := rfl

theorem Counts.sumList_cons (c : Counts) (l : List Counts) :
    Counts.sumList (c :: l) = c.add (Counts.sumList l) := by
  simp [Counts.sumList, Counts.add]

theorem Counts.sumList_perm {l₁ l₂ : List Counts} (h : List.Perm l₁ l₂) :
    Counts.sumList l₁ = Counts.sumList l₂ := by
  simp only [Counts.sumList]
  rw [(h.map (·.rows_total_compared)).sum_eq, (h.map (·.rows_added)).sum_eq,
    (h.map (·.rows_removed)).sum_eq, (h.map (·.rows_changed)).sum_eq,
    (h.map (·.rows_unchanged)).sum_eq]

theorem Counts.sumList_append (l₁ l₂ : List Counts) :
    Counts.sumList (l₁ ++ l₂) = (Counts.sumList l₁).add (Counts.sumList l₂) := by
  induction l₁ with
  | nil =>
    simp only [List.nil_append, Counts.sumList_nil]
    cases Counts.sumList l₂ with
    | mk a b c d e => simp [Counts.add]
  | cons c rest ih =>
    simp [Counts.sumList_cons, ih, Counts.add_assoc]

theorem keyedStep_char (kc cmp : List String) (emitU : Bool) (ia ib : CoreIndex)
    (acc : List Event × Counts) (k : List String) :
    keyedStep kc cmp emitU ia ib acc k =
      (acc.1 ++ (perKeyEvent kc cmp emitU ((assocGet ia k).map (fun e => e.2))
          ((assocGet ib k).map (fun e => e.2)) k).toList,
       acc.2.add (perKeyCounts cmp ((assocGet ia k).map (fun e => e.2))
          ((assocGet ib k).map (fun e => e.2)))) := by
  obtain ⟨acc1, tc, ad, rm, ch, un⟩ := acc
  · cases ha : assocGet ia k with
    | none =>
      cases hb : assocGet ib k with
      | none => simp [keyedStep, perKeyEvent, perKeyCounts, ha, hb, Counts.add]
      | some eb => simp [keyedStep, perKeyEvent, perKeyCounts, ha, hb, Counts.add]
    | some ea =>
      cases hb : assocGet ib k with
      | none => simp [keyedStep, perKeyEvent, perKeyCounts, ha, hb, Counts.add]
      | some eb =>
        by_cases hch : (changedColumns cmp ea.2 eb.2).isEmpty
        · cases emitU <;>
            simp [keyedStep, perKeyEvent, perKeyCounts, ha, hb, hch, Counts.add]
        · simp [keyedStep, perKeyEvent, perKeyCounts, ha, hb, hch, Counts.add]

theorem spillKeyedStep_char (kc cmp : List String) (emitU : Bool) (ia ib : SpillIndex)
    (acc : List Event × Counts) (k : List String) :
    spillKeyedStep kc cmp emitU ia ib acc k =
      (acc.1 ++ (perKeyEvent kc cmp emitU ((assocGet ia k).map (fun r => r.row))
          ((assocGet ib k).map (fun r => r.row)) k).toList,
       acc.2.add (perKeyCounts cmp ((assocGet ia k).map (fun r => r.row))
          ((assocGet ib k).map (fun r => r.row)))) := by
  obtain ⟨acc1, tc, ad, rm, ch, un⟩ := acc
  · cases ha : assocGet ia k with
    | none =>
      cases hb : assocGet ib k with
      | none => simp [spillKeyedStep, perKeyEvent, perKeyCounts, ha, hb, Counts.add]
      | some eb => simp [spillKeyedStep, perKeyEvent, perKeyCounts, ha, hb, Counts.add]
    | some ea =>
      cases hb : assocGet ib k with
      | none => simp [spillKeyedStep, perKeyEvent, perKeyCounts, ha, hb, Counts.add]
      | some eb =>
        by_cases hch : (changedColumns cmp ea.row eb.row).isEmpty
        · cases emitU <;>
            simp [spillKeyedStep, perKeyEvent, perKeyCounts, ha, hb, hch, Counts.add]
        · simp [spillKeyedStep, perKeyEvent, perKeyCounts, ha, hb, hch, Counts.add]

theorem positionalStep_char (cmp : List String) (emitU : Bool)
    (a_rows b_rows : List (Nat × Row)) (acc : List Event × Counts) (idx : Nat) :
    positionalStep cmp emitU a_rows b_rows acc idx =
      (acc.1 ++ (perIdxEvent cmp emitU ((a_rows[idx]?).map (fun e => e.2))
          ((b_rows[idx]?).map (fun e => e.2)) (idx + 2)).toList,
       acc.2.add (perKeyCounts cmp ((a_rows[idx]?).map (fun e => e.2))
          ((b_rows[idx]?).map (fun e => e.2)))) := by
  obtain ⟨acc1, tc, ad, rm, ch, un⟩ := acc
  · cases ha : a_rows[idx]? with
    | none =>
      cases hb : b_rows[idx]? with
      | none => simp [positionalStep, perIdxEvent, perKeyCounts, ha, hb, Counts.add]
      | some eb => simp [positionalStep, perIdxEvent, perKeyCounts, ha, hb, Counts.add]
    | some ea =>
      cases hb : b_rows[idx]? with
      | none => simp [positionalStep, perIdxEvent, perKeyCounts, ha, hb, Counts.add]
      | some eb =>
        by_cases hch : (changedColumns cmp ea.2 eb.2).isEmpty
        · cases emitU <;>
            simp [positionalStep, perIdxEvent, perKeyCounts, ha, hb, hch, Counts.add]
        · simp [positionalStep, perIdxEvent, perKeyCounts, ha, hb, hch, Counts.add]

theorem foldl_eventStep_char {κ : Type} (step : (List Event × Counts) → κ → (List Event × Counts))
    (ev : κ → Option Event) (ct : κ → Counts)
    (hstep : ∀ acc k, step acc k = (acc.1 ++ (ev k).toList, acc.2.add (ct k))) :
    ∀ (keys : List κ) (es : List Event) (c : Counts),
      keys.foldl step (es, c) =
        (es ++ keys.filterMap ev, c.add (Counts.sumList (keys.map ct))) := by
  intro keys
  induction keys with
  | nil =>
    intro es c
    simp [Counts.sumList_nil, Counts.add_zero]
  | cons k rest ih =>
    intro es c
    simp only [List.foldl_cons, hstep, ih, List.map_cons, Counts.sumList_cons]
    cases hk : ev k <;>
      simp [List.filterMap_cons, hk, Counts.add_assoc, List.append_assoc]

/-! ## Index characterizations -/

theorem checkRowKeys_ok (side : String) (row_index : Nat) (row : Row) (kc : List String)
    (h : ∀ c ∈ kc, (assocGet row c).getD "" ≠ "") :
    checkRowKeys side row_index row kc = .ok () := by
  induction kc with
  | nil => rfl
  | cons c rest ih =>
    have hc := h c (List.mem_cons_self c rest)
    cases hv : assocGet row c with
    | none => simp [hv] at hc
    | some v =>
      rw [hv] at hc
      simp only [Option.getD_some] at hc
      simp only [checkRowKeys, hv, if_neg hc]
      exact ih (fun c' hc' => h c' (List.mem_cons_of_mem _ hc'))

theorem indexRowsGo_ok (kc : List String) (side : String) :
    ∀ (rows : List (Nat × Row)) (acc : CoreIndex),
      (∀ e ∈ rows, ∀ c ∈ kc, (assocGet e.2 c).getD "" ≠ "") →
      (acc.map Prod.fst ++ rows.map (fun e => key_tuple e.2 kc)).Nodup →
      indexRowsGo kc side acc rows =
        .ok (acc ++ rows.map (fun e => (key_tuple e.2 kc, e.1, e.2))) := by
  intro rows
  induction rows with
  | nil =>
    intro acc _ _
    simp [indexRowsGo]
  | cons e rest ih =>
    intro acc hkeys hnd
    obtain ⟨row_index, row⟩ := e
    rw [List.map_cons] at hnd
    have hck := checkRowKeys_ok side row_index row kc
      (hkeys (row_index, row) (List.mem_cons_self _ _))
    have hget : assocGet acc (key_tuple row kc) = none := by
      rw [assocGet_eq_none_iff]
      intro hmem
      rw [List.nodup_append] at hnd
      exact hnd.2.2 hmem (List.mem_cons_self _ _)
    have hnd' : ((acc ++ [(key_tuple row kc, row_index, row)]).map Prod.fst ++
        rest.map (fun e => key_tuple e.2 kc)).Nodup := by
      simp only [List.map_append, List.map_cons, List.map_nil, List.append_assoc,
        List.singleton_append]
      simpa using hnd
    have hrec := ih (acc ++ [(key_tuple row kc, row_index, row)])
      (fun e' he' c hc => hkeys e' (List.mem_cons_of_mem _ he') c hc) hnd'
    simp only [indexRowsGo, hck, hget, hrec]
    simp only [List.append_assoc, List.singleton_append]
    rfl

theorem index_rows_ok (rows : List (Nat × Row)) (kc : List String) (side : String)
    (hkeys : ∀ e ∈ rows, ∀ c ∈ kc, (assocGet e.2 c).getD "" ≠ "")
    (hnd : (rows.map (fun e => key_tuple e.2 kc)).Nodup) :
    index_rows rows kc side = .ok (rows.map (fun e => (key_tuple e.2 kc, e.1, e.2))) := by
  rw [index_rows, indexRowsGo_ok kc side rows [] hkeys (by simpa using hnd)]
  simp

theorem assocGet_rowsIndex (kc : List String) (rows : List (Nat × Row)) (k : List String) :
    assocGet (rows.map (fun e => (key_tuple e.2 kc, e.1, e.2))) k = findRow rows kc k := by
  induction rows with
  | nil => simp [assocGet, findRow]
  | cons e rest ih =>
    by_cases h : k = key_tuple e.2 kc
    · simp [assocGet, findRow, List.find?_cons, h, beq_iff_eq]
    · have h' : ¬ (key_tuple e.2 kc == k) = true := by
        simp only [beq_iff_eq]
        exact fun hc => h hc.symm
      simp [List.map_cons, assocGet, if_neg h, findRow, List.find?_cons,
        Bool.of_not_eq_true h', ih, h]

theorem indexSpillGo_ok (kc : List String) (side : String) :
    ∀ (records : List SpillRecord) (acc : SpillIndex),
      (acc.map Prod.fst ++ records.map (fun r => r.key)).Nodup →
      indexSpillGo kc side acc records = .ok (acc ++ records.map (fun r => (r.key, r))) := by
  intro records
  induction records with
  | nil =>
    intro acc _
    simp [indexSpillGo]
  | cons r rest ih =>
    intro acc hnd
    rw [List.map_cons] at hnd
    have hget : assocGet acc r.key = none := by
      rw [assocGet_eq_none_iff]
      intro hmem
      rw [List.nodup_append] at hnd
      exact hnd.2.2 hmem (List.mem_cons_self _ _)
    have hnd' : ((acc ++ [(r.key, r)]).map Prod.fst ++ rest.map (fun r => r.key)).Nodup := by
      simp only [List.map_append, List.map_cons, List.map_nil, List.append_assoc,
        List.singleton_append]
      simpa using hnd
    have hrec := ih (acc ++ [(r.key, r)]) hnd'
    simp only [indexSpillGo, hget, hrec]
    simp

theorem index_spill_records_ok (records : List SpillRecord) (kc : List String) (side : String)
    (hnd : (records.map (fun r => r.key)).Nodup) :
    index_spill_records records kc side = .ok (records.map (fun r => (r.key, r))) := by
  rw [index_spill_records, indexSpillGo_ok kc side records [] (by simpa using hnd)]
  simp

theorem assocGet_spillIndex (records : List SpillRecord) (k : List String) :
    assocGet (records.map (fun r => (r.key, r))) k = findSpill records k := by
  induction records with
  | nil => simp [assocGet, findSpill]
  | cons r rest ih =>
    by_cases h : k = r.key
    · simp [assocGet, findSpill, List.find?_cons, h, beq_iff_eq]
    · have h' : ¬ (r.key == k) = true := by
        simp only [beq_iff_eq]
        exact fun hc => h hc.symm
      simp [List.map_cons, assocGet, if_neg h, findSpill, List.find?_cons,
        Bool.of_not_eq_true h', ih, h]

/-! ## Reader and in-memory diff characterizations -/

theorem Except.ok_bind {ε α β : Type} (a : α) (f : α → Except ε β) :
    (Except.ok a >>= f : Except ε β) = f a := rfl

theorem Counts.zero_add (c : Counts) : Counts.add ⟨0, 0, 0, 0, 0⟩ c = c := by
  cases c
  simp [Counts.add]

theorem validateHeaderGo_ok (side : String) :
    ∀ (header seen : List String), header.Nodup → (∀ c ∈ header, c ∉ seen) →
      validateHeaderGo side seen header = .ok () := by
  intro header
  induction header with
  | nil => intro seen _ _; rfl
  | cons h hs ih =>
    intro seen hnd hdisj
    simp only [List.nodup_cons] at hnd
    simp only [validateHeaderGo, if_neg (hdisj h (List.mem_cons_self _ _))]
    apply ih (h :: seen) hnd.2
    intro c hc
    intro hmem
    rcases List.mem_cons.mp hmem with h1 | h1
    · exact hnd.1 (h1 ▸ hc)
    · exact hdisj c (List.mem_cons_of_mem _ hc) h1

theorem validate_header_ok (header : List String) (side : String) (hnd : header.Nodup) :
    validate_header header side = .ok () :=
  validateHeaderGo_ok side header [] hnd (fun _ _ h => (List.not_mem_nil _) h)

theorem readRowsGo_ok (side : String) (width : Nat) (header : List String) :
    ∀ (records : List (List String)) (i : Nat),
      (∀ rec ∈ records, rec.length = width) →
      readRowsGo side width header i records = .ok (indexedRows header i records) := by
  intro records
  induction records with
  | nil => intro i _; rfl
  | cons rec rest ih =>
    intro i hw
    have hlen : rec.length = width := hw rec (List.mem_cons_self _ _)
    have hne : ¬ (rec.length ≠ width) := fun h => h hlen
    simp only [readRowsGo, if_neg hne, indexedRows,
      ih (i + 1) (fun r hr => hw r (List.mem_cons_of_mem _ hr))]
    rfl

theorem read_csv_reader_ok (header_record : List String) (records : List (List String))
    (side : String) (hnd : (normalize_header header_record).Nodup)
    (hw : ∀ rec ∈ records, rec.length = (normalize_header header_record).length) :
    read_csv_reader header_record records side =
      .ok (normalize_header header_record,
           indexedRows (normalize_header header_record) 2 records) := by
  simp only [read_csv_reader, validate_header_ok _ side hnd,
    readRowsGo_ok side _ _ records 2 hw]
  rfl

theorem diff_rows_keyed_char (a_header b_header : List String)
    (a_rows b_rows : List (Nat × Row)) (options : DiffOptions) (cmp : List String)
    (hcmp : comparison_columns a_header b_header options.header_mode = .ok cmp)
    (hkc : ∀ c ∈ options.key_columns, c ∈ a_header ∧ c ∈ b_header)
    (hak : ∀ e ∈ a_rows, ∀ c ∈ options.key_columns, (assocGet e.2 c).getD "" ≠ "")
    (hbk : ∀ e ∈ b_rows, ∀ c ∈ options.key_columns, (assocGet e.2 c).getD "" ≠ "")
    (hand : (a_rows.map (fun e => key_tuple e.2 options.key_columns)).Nodup)
    (hbnd : (b_rows.map (fun e => key_tuple e.2 options.key_columns)).Nodup) :
    diff_rows_keyed a_header a_rows b_header b_rows options =
      .ok (Event.schema a_header b_header ::
        (sortKeys ((a_rows.map (fun e => key_tuple e.2 options.key_columns) ++
            b_rows.map (fun e => key_tuple e.2 options.key_columns)).dedup)).filterMap
          (fun k => perKeyEvent options.key_columns cmp options.emit_unchanged
            ((findRow a_rows options.key_columns k).map (fun e => e.2))
            ((findRow b_rows options.key_columns k).map (fun e => e.2)) k)
        ++ [Event.stats (Counts.sumList
            ((sortKeys ((a_rows.map (fun e => key_tuple e.2 options.key_columns) ++
                b_rows.map (fun e => key_tuple e.2 options.key_columns)).dedup)).map
              (fun k => perKeyCounts cmp
                ((findRow a_rows options.key_columns k).map (fun e => e.2))
                ((findRow b_rows options.key_columns k).map (fun e => e.2)))))]) := by
  have hfind : options.key_columns.find?
      (fun kc => !(a_header.contains kc && b_header.contains kc)) = none := by
    rw [List.find?_eq_none]
    intro c hc
    simp only [Bool.not_eq_true, Bool.not_eq_eq_eq_not, Bool.not_true, Bool.and_eq_false_iff]
    intro habs
    rcases habs with habs | habs
    · exact (by simpa using habs : c ∉ a_header) (hkc c hc).1
    · exact (by simpa using habs : c ∉ b_header) (hkc c hc).2
  have hia := index_rows_ok a_rows options.key_columns "A" hak hand
  have hib := index_rows_ok b_rows options.key_columns "B" hbk hbnd
  simp only [diff_rows_keyed, hcmp, hfind, hia, hib, Except.ok_bind]
  have hfold := foldl_eventStep_char
    (keyedStep options.key_columns cmp options.emit_unchanged
      (a_rows.map (fun e => (key_tuple e.2 options.key_columns, e.1, e.2)))
      (b_rows.map (fun e => (key_tuple e.2 options.key_columns, e.1, e.2))))
    (fun k => perKeyEvent options.key_columns cmp options.emit_unchanged
      ((findRow a_rows options.key_columns k).map (fun e => e.2))
      ((findRow b_rows options.key_columns k).map (fun e => e.2)) k)
    (fun k => perKeyCounts cmp
      ((findRow a_rows options.key_columns k).map (fun e => e.2))
      ((findRow b_rows options.key_columns k).map (fun e => e.2)))
    (fun acc k => by
      rw [keyedStep_char, assocGet_rowsIndex, assocGet_rowsIndex])
  rw [hfold]
  simp [List.map_map, Function.comp_def, Counts.zero, Counts.zero_add]

theorem diff_rows_positional_char (a_header b_header : List String)
    (a_rows b_rows : List (Nat × Row)) (options : DiffOptions) (cmp : List String)
    (hcmp : comparison_columns a_header b_header options.header_mode = .ok cmp) :
    diff_rows_positional a_header a_rows b_header b_rows options =
      .ok (Event.schema a_header b_header ::
        (List.range (max a_rows.length b_rows.length)).filterMap
          (fun i => perIdxEvent cmp options.emit_unchanged
            ((a_rows[i]?).map (fun e => e.2)) ((b_rows[i]?).map (fun e => e.2)) (i + 2))
        ++ [Event.stats (Counts.sumList
            ((List.range (max a_rows.length b_rows.length)).map
              (fun i => perKeyCounts cmp
                ((a_rows[i]?).map (fun e => e.2)) ((b_rows[i]?).map (fun e => e.2)))))]) := by
  have hfold := foldl_eventStep_char
    (positionalStep cmp options.emit_unchanged a_rows b_rows)
    (fun i => perIdxEvent cmp options.emit_unchanged
      ((a_rows[i]?).map (fun e => e.2)) ((b_rows[i]?).map (fun e => e.2)) (i + 2))
    (fun i => perKeyCounts cmp ((a_rows[i]?).map (fun e => e.2))
      ((b_rows[i]?).map (fun e => e.2)))
    (fun acc i => positionalStep_char cmp options.emit_unchanged a_rows b_rows acc i)
  simp only [diff_rows_positional, hcmp, Except.ok_bind]
  rw [hfold]
  simp [Counts.zero, Counts.zero_add]

/-! ## Partition planner and spill-store lemmas -/

theorem key_indices_ok (header : List String) :
    ∀ (kc : List String), (∀ c ∈ kc, c ∈ header) →
      key_indices header kc = .ok (kc.map (fun c => (positionOf header c).getD 0)) := by
  intro kc
  induction kc with
  | nil => intro _; rfl
  | cons c rest ih =>
    intro h
    obtain ⟨i, hi⟩ := positionOf_isSome_of_mem (h c (List.mem_cons_self _ _))
    simp only [key_indices, hi, ih (fun c' hc' => h c' (List.mem_cons_of_mem _ hc')),
      Except.ok_bind, List.map_cons, Option.getD_some]

theorem planKeyParts_ok (side_label : String) (row_index : Nat) (header : List String)
    (record : List String) (hnd : header.Nodup) :
    ∀ (kc : List String), (∀ c ∈ kc, c ∈ header) →
      (∀ c ∈ kc, (assocGet (mkRow header record) c).getD "" ≠ "") →
      planKeyParts side_label row_index record
        ((kc.map (fun c => (positionOf header c).getD 0)).zip kc) =
        .ok (key_tuple (mkRow header record) kc) := by
  intro kc
  induction kc with
  | nil => intro _ _; rfl
  | cons c rest ih =>
    intro hin hne
    obtain ⟨i, hi⟩ := positionOf_isSome_of_mem (hin c (List.mem_cons_self _ _))
    have hval : (record[i]?).getD "" = (assocGet (mkRow header record) c).getD "" := by
      rw [mkRow_get header record hnd c, assocGet_zip_positionOf, hi]
      rfl
    have hcne := hne c (List.mem_cons_self _ _)
    rw [← hval] at hcne
    have ihh := ih (fun c' hc' => hin c' (List.mem_cons_of_mem _ hc'))
      (fun c' hc' => hne c' (List.mem_cons_of_mem _ hc'))
    simp only [List.map_cons, hi, Option.getD_some, List.zip_cons_cons, planKeyParts,
      if_neg hcne]
    rw [show List.zipWith Prod.mk (rest.map (fun c => (positionOf header c).getD 0)) rest =
        (rest.map (fun c => (positionOf header c).getD 0)).zip rest from rfl, ihh,
      Except.ok_bind]
    simp [key_tuple, hval]

theorem TempDirSpill.validate_ok (spill : TempDirSpill) (side : String) (pid : Nat)
    (hside : side = "a" ∨ side = "b") (hpid : pid < spill.partitions) :
    spill.validate side pid = .ok () := by
  rcases hside with h | h <;> subst h <;>
    simp [TempDirSpill.validate, Nat.not_le.mpr hpid]

theorem TempDirSpill.append_ok (spill : TempDirSpill) (side : String) (pid : Nat)
    (record : SpillRecord) (hside : side = "a" ∨ side = "b")
    (hpid : pid < spill.partitions) :
    spill.append side pid record = .ok (appendRecord spill side pid record) := by
  simp only [TempDirSpill.append, TempDirSpill.validate_ok spill side pid hside hpid,
    Except.ok_bind, appendRecord]

theorem partition_for_key_lt (key : List String) (P : Nat) (hP : 1 ≤ P) :
    partition_for_key key P < P := by
  have hmax : max P 1 = P := Nat.max_eq_left hP
  rw [partition_for_key, hmax]
  exact Nat.mod_lt _ (Nat.lt_of_lt_of_le Nat.zero_lt_one hP)

theorem spill_json_record_ok (spill : TempDirSpill) (side : String)
    (key_parts : List String) (record : SpillRecord) (hside : side = "a" ∨ side = "b")
    (hP : 1 ≤ spill.partitions) :
    spill_json_record spill side key_parts record =
      .ok (appendRecord spill side (partition_for_key key_parts spill.partitions) record,
           partition_for_key key_parts spill.partitions) := by
  simp only [spill_json_record,
    TempDirSpill.append_ok spill side _ record hside
      (partition_for_key_lt key_parts spill.partitions hP),
    Except.ok_bind]

theorem appendRecord_partitions (spill : TempDirSpill) (side : String) (pid : Nat)
    (record : SpillRecord) : (appendRecord spill side pid record).partitions =
      spill.partitions := rfl

theorem spillAfter_partitions (side : String) (P : Nat) :
    ∀ (entries : List SpillRecord) (spill : TempDirSpill),
      (spillAfter spill side P entries).partitions = spill.partitions := by
  intro entries
  induction entries with
  | nil => intro spill; rfl
  | cons e rest ih => intro spill; exact ih _

theorem combineFile_nil (old : Option (List SpillRecord)) : combineFile old [] = old := by
  cases old <;> simp [combineFile]

theorem spillAfter_files (side : String) (P : Nat) :
    ∀ (entries : List SpillRecord) (spill : TempDirSpill) (s : String) (p : Nat),
      (spillAfter spill side P entries).files s p =
        if s = side then
          combineFile (spill.files s p)
            (entries.filter (fun e => partition_for_key e.key P = p))
        else spill.files s p := by
  intro entries
  induction entries with
  | nil =>
    intro spill s p
    simp only [spillAfter, List.foldl_nil, List.filter_nil, combineFile_nil]
    split <;> rfl
  | cons e rest ih =>
    intro spill s p
    have hstep : spillAfter spill side P (e :: rest) =
        spillAfter (appendRecord spill side (partition_for_key e.key P) e) side P rest := rfl
    rw [hstep, ih]
    by_cases hs : s = side
    · subst hs
      simp only [if_pos rfl, appendRecord, List.filter_cons]
      by_cases hp : partition_for_key e.key P = p
      · cases hold : spill.files s p <;> simp [hp, hold, combineFile]
      · have hp' : ¬ p = partition_for_key e.key P := fun h => hp h.symm
        simp [hp, hp']
    · simp only [if_neg hs, appendRecord]
      have hcond : ¬ (s = side ∧ p = partition_for_key e.key P) := fun hc => hs hc.1
      rw [if_neg hcond]

theorem read_spill_records_of_files (spill : TempDirSpill) (side : String) (pid : Nat)
    (l : List SpillRecord) (hside : side = "a" ∨ side = "b")
    (hpid : pid < spill.partitions) (hf : spill.files side pid = combineFile none l) :
    read_spill_records spill side pid = .ok l := by
  cases l with
  | nil =>
    rw [combineFile_nil] at hf
    simp only [read_spill_records, TempDirSpill.validate_ok spill side pid hside hpid,
      Except.ok_bind, hf]
  | cons x xs =>
    have : combineFile none (x :: xs) = some (x :: xs) := rfl
    rw [this] at hf
    simp only [read_spill_records, TempDirSpill.validate_ok spill side pid hside hpid,
      Except.ok_bind, hf]

theorem find?_filter_eq {α : Type} (p q : α → Bool) :
    ∀ (l : List α), (∀ x ∈ l, q x = true → p x = true) →
      (l.filter p).find? q = l.find? q := by
  intro l
  induction l with
  | nil => intro _; rfl
  | cons x rest ih =>
    intro h
    have ihrest := ih (fun y hy => h y (List.mem_cons_of_mem _ hy))
    by_cases hq : q x = true
    · have hp := h x (List.mem_cons_self _ _) hq
      simp [List.filter_cons, hp, List.find?_cons, hq]
    · by_cases hp : p x = true
      · simp only [List.filter_cons, hp, if_pos]
        rw [List.find?_cons, List.find?_cons]
        simp only [Bool.of_not_eq_true hq]
        exact ihrest
      · simp only [List.filter_cons, Bool.of_not_eq_true hp, Bool.false_eq_true, if_false]
        rw [ihrest, List.find?_cons]
        simp only [Bool.of_not_eq_true hq]

theorem map_key_filter (g : List String → Bool) :
    ∀ (l : List SpillRecord),
      (l.filter (fun e => g e.key)).map (fun r => r.key) =
        (l.map (fun r => r.key)).filter g := by
  intro l
  induction l with
  | nil => rfl
  | cons r rest ih =>
    by_cases h : g r.key = true
    · simp [List.filter_cons, h, ih]
    · simp [List.filter_cons, Bool.of_not_eq_true h, ih]

theorem TempDirSpill.new_ok (partitions : Nat) (hP : 1 ≤ partitions) :
    TempDirSpill.new partitions = .ok ⟨partitions, fun _ _ => none⟩ := by
  rw [TempDirSpill.new, if_neg (Nat.pos_iff_ne_zero.mp hP)]

theorem rowsEntries_cons (kc : List String) (e : Nat × Row) (rest : List (Nat × Row)) :
    rowsEntries kc (e :: rest) = ⟨key_tuple e.2 kc, e.1, e.2⟩ :: rowsEntries kc rest := rfl

theorem partitionRowsGo_ok (side_tag side_label : String) (header : List String)
    (kc : List String) (hside : side_tag = "a" ∨ side_tag = "b") (hnd : header.Nodup)
    (hkcin : ∀ c ∈ kc, c ∈ header) :
    ∀ (records : List (List String)) (spill : TempDirSpill) (counts : List Nat)
      (rc ri : Nat),
      1 ≤ spill.partitions →
      (∀ rec ∈ records, rec.length = header.length) →
      (∀ rec ∈ records, ∀ c ∈ kc, (assocGet (mkRow header rec) c).getD "" ≠ "") →
      ∃ counts', partitionRowsGo side_tag side_label header kc
          (kc.map (fun c => (positionOf header c).getD 0)) header.length
          spill counts rc ri records =
        .ok (spillAfter spill side_tag spill.partitions
              (rowsEntries kc (indexedRows header ri records)), counts',
             rc + records.length) := by
  intro records
  induction records with
  | nil =>
    intro spill counts rc ri _ _ _
    exact ⟨counts, by simp [partitionRowsGo, indexedRows, rowsEntries, spillAfter]⟩
  | cons rec rest ih =>
    intro spill counts rc ri hP hw hk
    have hlen : rec.length = header.length := hw rec (List.mem_cons_self _ _)
    have hne : ¬ (rec.length ≠ header.length) := fun h => h hlen
    have hplan := planKeyParts_ok side_label ri header rec hnd kc hkcin
      (hk rec (List.mem_cons_self _ _))
    have hspill := spill_json_record_ok spill side_tag
      (key_tuple (mkRow header rec) kc)
      ⟨key_tuple (mkRow header rec) kc, ri, mkRow header rec⟩ hside hP
    obtain ⟨counts', hrec⟩ := ih
      (appendRecord spill side_tag
        (partition_for_key (key_tuple (mkRow header rec) kc) spill.partitions)
        ⟨key_tuple (mkRow header rec) kc, ri, mkRow header rec⟩)
      (counts.set (partition_for_key (key_tuple (mkRow header rec) kc) spill.partitions)
        ((counts.getD (partition_for_key (key_tuple (mkRow header rec) kc) spill.partitions)
          0) + 1))
      (rc + 1) (ri + 1) (by rw [appendRecord_partitions]; exact hP)
      (fun r hr => hw r (List.mem_cons_of_mem _ hr))
      (fun r hr => hk r (List.mem_cons_of_mem _ hr))
    refine ⟨counts', ?_⟩
    simp only [partitionRowsGo, if_neg hne, hplan, Except.ok_bind, hspill, hrec,
      appendRecord_partitions]
    rw [show indexedRows header ri (rec :: rest) =
        (ri, mkRow header rec) :: indexedRows header (ri + 1) rest from rfl,
      rowsEntries_cons]
    rw [show spillAfter spill side_tag spill.partitions
        (⟨key_tuple (mkRow header rec) kc, ri, mkRow header rec⟩ ::
          rowsEntries kc (indexedRows header (ri + 1) rest)) =
        spillAfter (appendRecord spill side_tag
          (partition_for_key (key_tuple (mkRow header rec) kc) spill.partitions)
          ⟨key_tuple (mkRow header rec) kc, ri, mkRow header rec⟩) side_tag spill.partitions
          (rowsEntries kc (indexedRows header (ri + 1) rest)) from rfl]
    rw [show rc + 1 + rest.length = rc + (rest.length + 1) from by omega]
    rfl

theorem partition_one_side_ok (records : List (List String)) (side_tag side_label : String)
    (header : List String) (kc : List String) (spill : TempDirSpill)
    (counts : List Nat) (hside : side_tag = "a" ∨ side_tag = "b") (hnd : header.Nodup)
    (hkcin : ∀ c ∈ kc, c ∈ header) (hP : 1 ≤ spill.partitions)
    (hw : ∀ rec ∈ records, rec.length = header.length)
    (hk : ∀ rec ∈ records, ∀ c ∈ kc, (assocGet (mkRow header rec) c).getD "" ≠ "") :
    ∃ counts', partition_one_side records side_tag side_label header kc
        (kc.map (fun c => (positionOf header c).getD 0)) spill counts =
      .ok (spillAfter spill side_tag spill.partitions
            (rowsEntries kc (indexedRows header 2 records)), counts', records.length) := by
  obtain ⟨counts', h⟩ := partitionRowsGo_ok side_tag side_label header kc hside hnd hkcin
    records spill counts 0 2 hP hw hk
  exact ⟨counts', by simpa using h⟩

theorem Except.mapError_ok {ε ε' α : Type} (f : ε → ε') (a : α) :
    (Except.ok a : Except ε α).mapError f = .ok a := rfl

theorem partition_inputs_to_spill_ok (a_header_record : List String)
    (a_records : List (List String)) (b_header_record : List String)
    (b_records : List (List String)) (options : DiffOptions) (P : Nat) (cmp : List String)
    (hP : 1 ≤ P)
    (handA : (normalize_header a_header_record).Nodup)
    (handB : (normalize_header b_header_record).Nodup)
    (hcmp : comparison_columns (normalize_header a_header_record)
      (normalize_header b_header_record) options.header_mode = .ok cmp)
    (hkcA : ∀ c ∈ options.key_columns, c ∈ normalize_header a_header_record)
    (hkcB : ∀ c ∈ options.key_columns, c ∈ normalize_header b_header_record)
    (hwA : ∀ rec ∈ a_records, rec.length = (normalize_header a_header_record).length)
    (hwB : ∀ rec ∈ b_records, rec.length = (normalize_header b_header_record).length)
    (hkA : ∀ rec ∈ a_records, ∀ c ∈ options.key_columns,
      (assocGet (mkRow (normalize_header a_header_record) rec) c).getD "" ≠ "")
    (hkB : ∀ rec ∈ b_records, ∀ c ∈ options.key_columns,
      (assocGet (mkRow (normalize_header b_header_record) rec) c).getD "" ≠ "") :
    ∃ ca cb, partition_inputs_to_spill a_header_record a_records b_header_record b_records
        options P =
      .ok ⟨spillAfter (spillAfter ⟨P, fun _ _ => none⟩ "a" P
              (rowsEntries options.key_columns
                (indexedRows (normalize_header a_header_record) 2 a_records))) "b" P
            (rowsEntries options.key_columns
              (indexedRows (normalize_header b_header_record) 2 b_records)),
           normalize_header a_header_record, normalize_header b_header_record, cmp,
           a_records.length, b_records.length, ca, cb⟩ := by
  have hreadA : read_header a_header_record "A" = .ok (normalize_header a_header_record) := by
    simp only [read_header, validate_header_ok _ "A" handA, Except.mapError_ok,
      Except.ok_bind]
  have hreadB : read_header b_header_record "B" = .ok (normalize_header b_header_record) := by
    simp only [read_header, validate_header_ok _ "B" handB, Except.mapError_ok,
      Except.ok_bind]
  have hkiA := key_indices_ok (normalize_header a_header_record) options.key_columns hkcA
  have hkiB := key_indices_ok (normalize_header b_header_record) options.key_columns hkcB
  have hbase : (⟨P, fun _ _ => none⟩ : TempDirSpill).partitions = P := rfl
  obtain ⟨ca, hA⟩ := partition_one_side_ok a_records "a" "A"
    (normalize_header a_header_record) options.key_columns ⟨P, fun _ _ => none⟩
    (List.replicate P 0) (Or.inl rfl) handA hkcA (by rw [hbase]; exact hP) hwA hkA
  have hmidP : (spillAfter ⟨P, fun _ _ => none⟩ "a" P
      (rowsEntries options.key_columns
        (indexedRows (normalize_header a_header_record) 2 a_records))).partitions = P := by
    rw [spillAfter_partitions]
  obtain ⟨cb, hB⟩ := partition_one_side_ok b_records "b" "B"
    (normalize_header b_header_record) options.key_columns
    (spillAfter ⟨P, fun _ _ => none⟩ "a" P
      (rowsEntries options.key_columns
        (indexedRows (normalize_header a_header_record) 2 a_records)))
    (List.replicate P 0) (Or.inr rfl) handB hkcB (by rw [hmidP]; exact hP) hwB hkB
  refine ⟨ca, cb, ?_⟩
  rw [hbase] at hA
  rw [hmidP] at hB
  simp only [partition_inputs_to_spill, hreadA, hreadB, hcmp, Except.mapError_ok,
    hkiA, hkiB, TempDirSpill.new_ok P hP, Except.ok_bind, hA, hB]

/-! ## Partition multiset lemmas -/

theorem filterMap_flatten {α β : Type} (f : α → Option β) :
    ∀ (L : List (List α)), L.flatten.filterMap f = (L.map (List.filterMap f)).flatten := by
  intro L
  induction L with
  | nil => rfl
  | cons x xs ih => simp [List.filterMap_append, ih]

theorem sumList_map_flatten (f : List String → Counts) :
    ∀ (L : List (List (List String))),
      Counts.sumList (L.flatten.map f) =
        Counts.sumList (L.map (fun l => Counts.sumList (l.map f))) := by
  intro L
  induction L with
  | nil => rfl
  | cons x xs ih =>
    simp only [List.flatten_cons, List.map_append, Counts.sumList_append, ih,
      List.map_cons, Counts.sumList_cons]

theorem count_flatten {α : Type} [BEq α] (a : α) :
    ∀ (L : List (List α)), L.flatten.count a = (L.map (List.count a)).sum := by
  intro L
  induction L with
  | nil => rfl
  | cons x xs ih => simp [List.count_append, ih]

theorem sum_range_indicator (c : Nat) :
    ∀ (P t : Nat), t < P →
      ((List.range P).map (fun p => if t = p then c else 0)).sum = c := by
  intro P
  induction P with
  | zero => intro t ht; exact absurd ht (Nat.not_lt_zero t)
  | succ n ih =>
    intro t ht
    rw [List.range_succ, List.map_append, List.sum_append]
    by_cases h : t = n
    · subst h
      have hzero : ((List.range t).map (fun p => if t = p then c else 0)).sum = 0 := by
        apply List.sum_eq_zero
        intro x hx
        rcases List.mem_map.mp hx with ⟨p, hp, hpx⟩
        have : t ≠ p := Nat.ne_of_gt (List.mem_range.mp hp)
        rw [← hpx, if_neg this]
      simp [hzero]
    · have ht' : t < n := Nat.lt_of_le_of_ne (Nat.le_of_lt_succ ht) h
      simp [ih t ht', h]

theorem flatten_partition_keys_perm (keysAB : List (List String)) (P : Nat) (hP : 1 ≤ P) :
    List.Perm
      ((List.range P).map (fun p =>
        sortKeys ((keysAB.filter (fun k => partition_for_key k P = p)).dedup))).flatten
      (sortKeys keysAB.dedup) := by
  rw [List.perm_iff_count]
  intro k
  have hsort : ∀ (inst : DecidableEq (List String)) (l : List (List String)),
      @List.count _ (@instBEqOfDecidableEq _ inst) k (sortKeys l) =
      @List.count _ (@instBEqOfDecidableEq _ inst) k l :=
    fun inst l => @List.Perm.count_eq _ inst _ _ (sortKeys_perm l) k
  rw [hsort _, List.count_dedup]
  refine Eq.trans (@count_flatten _ instBEqOfDecidableEq k _) ?_
  rw [List.map_map]
  by_cases hmem : k ∈ keysAB
  · rw [if_pos hmem]
    refine Eq.trans (congrArg List.sum (List.map_congr_left ?_))
      (sum_range_indicator 1 P (partition_for_key k P) (partition_for_key_lt k P hP))
    intro p _
    simp only [Function.comp_apply]
    rw [hsort _, List.count_dedup]
    by_cases hpk : partition_for_key k P = p
    · rw [if_pos (List.mem_filter.mpr ⟨hmem, by simp [hpk]⟩), if_pos hpk]
    · rw [if_neg (fun hc => hpk (by simpa using (List.mem_filter.mp hc).2)), if_neg hpk]
  · rw [if_neg hmem]
    apply List.sum_eq_zero
    intro x hx
    rcases List.mem_map.mp hx with ⟨p, _, hpx⟩
    rw [← hpx]
    simp only [Function.comp_apply]
    rw [hsort _, List.count_dedup, if_neg (fun hc => hmem (List.mem_filter.mp hc).1)]

theorem map_key_filter_pfk (P p : Nat) :
    ∀ (l : List SpillRecord),
      (l.filter (fun e => partition_for_key e.key P = p)).map (fun r => r.key) =
        (l.map (fun r => r.key)).filter (fun k => partition_for_key k P = p) := by
  intro l
  induction l with
  | nil => rfl
  | cons r rest ih =>
    by_cases h : partition_for_key r.key P = p
    · simp [List.filter_cons, h, ih]
    · simp [List.filter_cons, h, ih]

theorem filterMap_congr_mem {α β : Type} (f g : α → Option β) :
    ∀ (l : List α), (∀ a ∈ l, f a = g a) → l.filterMap f = l.filterMap g := by
  intro l
  induction l with
  | nil => intro _; rfl
  | cons x rest ih =>
    intro h
    simp only [List.filterMap_cons, h x (List.mem_cons_self _ _),
      ih (fun a ha => h a (List.mem_cons_of_mem _ ha))]

theorem rowsEntries_map_key (kc : List String) (rows : List (Nat × Row)) :
    (rowsEntries kc rows).map (fun r => r.key) =
      rows.map (fun e => key_tuple e.2 kc) := by
  simp [rowsEntries, List.map_map, Function.comp_def]

theorem findSpill_rowsEntries (kc : List String) (k : List String) :
    ∀ (rows : List (Nat × Row)),
      findSpill (rowsEntries kc rows) k =
        (findRow rows kc k).map (fun e => ⟨key_tuple e.2 kc, e.1, e.2⟩) := by
  intro rows
  induction rows with
  | nil => rfl
  | cons e rest ih =>
    simp only [rowsEntries_cons, findSpill, findRow, List.find?_cons] at ih ⊢
    by_cases h : (key_tuple e.2 kc == k) = true
    · simp [h]
    · simp only [Bool.of_not_eq_true h]
      exact ih

theorem spillLookup_eq (kc : List String) (rows : List (Nat × Row)) (P p : Nat)
    (k : List String) (hpk : partition_for_key k P = p) :
    (findSpill ((rowsEntries kc rows).filter
        (fun e => partition_for_key e.key P = p)) k).map (fun r => r.row) =
      (findRow rows kc k).map (fun e => e.2) := by
  have hfe : ∀ x ∈ rowsEntries kc rows, (x.key == k) = true →
      decide (partition_for_key x.key P = p) = true := by
    intro x _ hx
    rw [beq_iff_eq] at hx
    simp [hx, hpk]
  rw [findSpill, find?_filter_eq _ _ _ hfe, ← findSpill, findSpill_rowsEntries kc k rows]
  cases findRow rows kc k <;> rfl

theorem diffPartitionStep_char (aH bH cmp : List String) (a_rows b_rows : List (Nat × Row))
    (options : DiffOptions) (P : Nat) (hP : 1 ≤ P) (rca rcb : Nat) (cra crb : List Nat)
    (hand : (a_rows.map (fun e => key_tuple e.2 options.key_columns)).Nodup)
    (hbnd : (b_rows.map (fun e => key_tuple e.2 options.key_columns)).Nodup)
    (p : Nat) (hp : p < P) (acc : List Event × Counts) :
    diffPartitionStep
      ⟨spillAfter (spillAfter ⟨P, fun _ _ => none⟩ "a" P
          (rowsEntries options.key_columns a_rows)) "b" P
          (rowsEntries options.key_columns b_rows),
       aH, bH, cmp, rca, rcb, cra, crb⟩ options acc p =
      .ok (acc.1 ++
        (sortKeys (((a_rows.map (fun e => key_tuple e.2 options.key_columns) ++
            b_rows.map (fun e => key_tuple e.2 options.key_columns)).filter
            (fun k => partition_for_key k P = p)).dedup)).filterMap
          (fun k => perKeyEvent options.key_columns cmp options.emit_unchanged
            ((findRow a_rows options.key_columns k).map (fun e => e.2))
            ((findRow b_rows options.key_columns k).map (fun e => e.2)) k),
        acc.2.add (Counts.sumList
          ((sortKeys (((a_rows.map (fun e => key_tuple e.2 options.key_columns) ++
              b_rows.map (fun e => key_tuple e.2 options.key_columns)).filter
              (fun k => partition_for_key k P = p)).dedup)).map
            (fun k => perKeyCounts cmp
              ((findRow a_rows options.key_columns k).map (fun e => e.2))
              ((findRow b_rows options.key_columns k).map (fun e => e.2)))))) := by
  have hSpart : (spillAfter (spillAfter ⟨P, fun _ _ => none⟩ "a" P
      (rowsEntries options.key_columns a_rows)) "b" P
      (rowsEntries options.key_columns b_rows)).partitions = P := by
    rw [spillAfter_partitions, spillAfter_partitions]
  have hfa : (spillAfter (spillAfter ⟨P, fun _ _ => none⟩ "a" P
      (rowsEntries options.key_columns a_rows)) "b" P
      (rowsEntries options.key_columns b_rows)).files "a" p =
      combineFile none ((rowsEntries options.key_columns a_rows).filter
        (fun e => partition_for_key e.key P = p)) := by
    rw [spillAfter_files, if_neg (by decide), spillAfter_files, if_pos rfl]
  have hfb : (spillAfter (spillAfter ⟨P, fun _ _ => none⟩ "a" P
      (rowsEntries options.key_columns a_rows)) "b" P
      (rowsEntries options.key_columns b_rows)).files "b" p =
      combineFile none ((rowsEntries options.key_columns b_rows).filter
        (fun e => partition_for_key e.key P = p)) := by
    rw [spillAfter_files, if_pos rfl, spillAfter_files, if_neg (by decide)]
  have hreadA := read_spill_records_of_files _ "a" p _ (Or.inl rfl) (by rw [hSpart]; exact hp) hfa
  have hreadB := read_spill_records_of_files _ "b" p _ (Or.inr rfl) (by rw [hSpart]; exact hp) hfb
  have hkeysA : ((rowsEntries options.key_columns a_rows).filter
      (fun e => partition_for_key e.key P = p)).map (fun r => r.key) =
      (a_rows.map (fun e => key_tuple e.2 options.key_columns)).filter
        (fun k => partition_for_key k P = p) := by
    rw [map_key_filter_pfk, rowsEntries_map_key]
  have hkeysB : ((rowsEntries options.key_columns b_rows).filter
      (fun e => partition_for_key e.key P = p)).map (fun r => r.key) =
      (b_rows.map (fun e => key_tuple e.2 options.key_columns)).filter
        (fun k => partition_for_key k P = p) := by
    rw [map_key_filter_pfk, rowsEntries_map_key]
  have hidxA := index_spill_records_ok
    ((rowsEntries options.key_columns a_rows).filter
      (fun e => partition_for_key e.key P = p)) options.key_columns "A"
    (by rw [hkeysA]; exact hand.filter _)
  have hidxB := index_spill_records_ok
    ((rowsEntries options.key_columns b_rows).filter
      (fun e => partition_for_key e.key P = p)) options.key_columns "B"
    (by rw [hkeysB]; exact hbnd.filter _)
  have hfold := foldl_eventStep_char
    (spillKeyedStep options.key_columns cmp options.emit_unchanged
      (((rowsEntries options.key_columns a_rows).filter
        (fun e => partition_for_key e.key P = p)).map (fun r => (r.key, r)))
      (((rowsEntries options.key_columns b_rows).filter
        (fun e => partition_for_key e.key P = p)).map (fun r => (r.key, r))))
    (fun k => perKeyEvent options.key_columns cmp options.emit_unchanged
      ((findSpill ((rowsEntries options.key_columns a_rows).filter
        (fun e => partition_for_key e.key P = p)) k).map (fun r => r.row))
      ((findSpill ((rowsEntries options.key_columns b_rows).filter
        (fun e => partition_for_key e.key P = p)) k).map (fun r => r.row)) k)
    (fun k => perKeyCounts cmp
      ((findSpill ((rowsEntries options.key_columns a_rows).filter
        (fun e => partition_for_key e.key P = p)) k).map (fun r => r.row))
      ((findSpill ((rowsEntries options.key_columns b_rows).filter
        (fun e => partition_for_key e.key P = p)) k).map (fun r => r.row)))
    (fun acc k => by rw [spillKeyedStep_char, assocGet_spillIndex, assocGet_spillIndex])
  simp only [diffPartitionStep, hreadA, hreadB, hidxA, hidxB, Except.ok_bind]
  rw [hfold]
  have hkeyset : ((((rowsEntries options.key_columns a_rows).filter
        (fun e => partition_for_key e.key P = p)).map (fun r => (r.key, r))).map Prod.fst ++
      (((rowsEntries options.key_columns b_rows).filter
        (fun e => partition_for_key e.key P = p)).map (fun r => (r.key, r))).map Prod.fst) =
      ((a_rows.map (fun e => key_tuple e.2 options.key_columns) ++
        b_rows.map (fun e => key_tuple e.2 options.key_columns)).filter
        (fun k => partition_for_key k P = p)) := by
    rw [List.filter_append]
    rw [← hkeysA, ← hkeysB]
    simp [List.map_map, Function.comp_def]
  rw [hkeyset]
  have hmemp : ∀ k ∈ sortKeys (((a_rows.map (fun e => key_tuple e.2 options.key_columns) ++
      b_rows.map (fun e => key_tuple e.2 options.key_columns)).filter
      (fun k => partition_for_key k P = p)).dedup), partition_for_key k P = p := by
    intro k hk
    rw [sortKeys, List.mem_insertionSort, List.mem_dedup] at hk
    simpa using (List.mem_filter.mp hk).2
  refine congrArg Except.ok ?_
  refine congrArg₂ Prod.mk ?_ ?_
  · refine congrArg (fun l => acc.1 ++ l) ?_
    exact filterMap_congr_mem _ _ _ (fun k hk => by
      rw [spillLookup_eq options.key_columns a_rows P p k (hmemp k hk),
        spillLookup_eq options.key_columns b_rows P p k (hmemp k hk)])
  · refine congrArg (fun l => acc.2.add (Counts.sumList l)) ?_
    exact List.map_congr_left (fun k hk => by
      rw [spillLookup_eq options.key_columns a_rows P p k (hmemp k hk),
        spillLookup_eq options.key_columns b_rows P p k (hmemp k hk)])

theorem foldlM_ok_char (step : (List Event × Counts) → Nat → Except EngineError (List Event × Counts))
    (f : Nat → List Event) (g : Nat → Counts) :
    ∀ (pids : List Nat) (acc : List Event × Counts),
      (∀ (acc' : List Event × Counts) (p : Nat), p ∈ pids →
        step acc' p = .ok (acc'.1 ++ f p, acc'.2.add (g p))) →
      List.foldlM step acc pids =
        .ok (acc.1 ++ (pids.map f).flatten, acc.2.add (Counts.sumList (pids.map g))) := by
  intro pids
  induction pids with
  | nil =>
    intro acc _
    obtain ⟨a1, a2⟩ := acc
    simp only [List.foldlM, List.map_nil, List.flatten_nil, List.append_nil,
      Counts.sumList_nil, Counts.add_zero]
    rfl
  | cons p rest ih =>
    intro acc hstep
    rw [List.foldlM_cons, hstep acc p (List.mem_cons_self _ _), Except.ok_bind,
      ih _ (fun acc' q hq => hstep acc' q (List.mem_cons_of_mem _ hq))]
    simp [List.append_assoc, Counts.add_assoc, Counts.sumList_cons]

theorem diff_partitioned_from_manifest_char (aH bH cmp : List String)
    (a_rows b_rows : List (Nat × Row)) (options : DiffOptions) (P : Nat) (hP : 1 ≤ P)
    (rca rcb : Nat) (cra crb : List Nat)
    (hand : (a_rows.map (fun e => key_tuple e.2 options.key_columns)).Nodup)
    (hbnd : (b_rows.map (fun e => key_tuple e.2 options.key_columns)).Nodup) :
    diff_partitioned_from_manifest
      ⟨spillAfter (spillAfter ⟨P, fun _ _ => none⟩ "a" P
          (rowsEntries options.key_columns a_rows)) "b" P
          (rowsEntries options.key_columns b_rows),
       aH, bH, cmp, rca, rcb, cra, crb⟩ options =
      .ok (Event.schema aH bH ::
        (((List.range P).map (fun p =>
            sortKeys (((a_rows.map (fun e => key_tuple e.2 options.key_columns) ++
              b_rows.map (fun e => key_tuple e.2 options.key_columns)).filter
              (fun k => partition_for_key k P = p)).dedup))).flatten).filterMap
          (fun k => perKeyEvent options.key_columns cmp options.emit_unchanged
            ((findRow a_rows options.key_columns k).map (fun e => e.2))
            ((findRow b_rows options.key_columns k).map (fun e => e.2)) k)
        ++ [Event.stats (Counts.sumList
            ((((List.range P).map (fun p =>
                sortKeys (((a_rows.map (fun e => key_tuple e.2 options.key_columns) ++
                  b_rows.map (fun e => key_tuple e.2 options.key_columns)).filter
                  (fun k => partition_for_key k P = p)).dedup))).flatten).map
              (fun k => perKeyCounts cmp
                ((findRow a_rows options.key_columns k).map (fun e => e.2))
                ((findRow b_rows options.key_columns k).map (fun e => e.2)))))]) := by
  have hSpart : (spillAfter (spillAfter ⟨P, fun _ _ => none⟩ "a" P
      (rowsEntries options.key_columns a_rows)) "b" P
      (rowsEntries options.key_columns b_rows)).partitions = P := by
    rw [spillAfter_partitions, spillAfter_partitions]
  have hloop := foldlM_ok_char
    (diffPartitionStep
      ⟨spillAfter (spillAfter ⟨P, fun _ _ => none⟩ "a" P
          (rowsEntries options.key_columns a_rows)) "b" P
          (rowsEntries options.key_columns b_rows),
       aH, bH, cmp, rca, rcb, cra, crb⟩ options)
    (fun p => (sortKeys (((a_rows.map (fun e => key_tuple e.2 options.key_columns) ++
        b_rows.map (fun e => key_tuple e.2 options.key_columns)).filter
        (fun k => partition_for_key k P = p)).dedup)).filterMap
      (fun k => perKeyEvent options.key_columns cmp options.emit_unchanged
        ((findRow a_rows options.key_columns k).map (fun e => e.2))
        ((findRow b_rows options.key_columns k).map (fun e => e.2)) k))
    (fun p => Counts.sumList
      ((sortKeys (((a_rows.map (fun e => key_tuple e.2 options.key_columns) ++
          b_rows.map (fun e => key_tuple e.2 options.key_columns)).filter
          (fun k => partition_for_key k P = p)).dedup)).map
        (fun k => perKeyCounts cmp
          ((findRow a_rows options.key_columns k).map (fun e => e.2))
          ((findRow b_rows options.key_columns k).map (fun e => e.2)))))
    (List.range P)
    ([Event.schema aH bH], Counts.zero)
    (fun acc' p hp => diffPartitionStep_char aH bH cmp a_rows b_rows options P hP
      rca rcb cra crb hand hbnd p (List.mem_range.mp hp) acc')
  simp only [diff_partitioned_from_manifest, hSpart, hloop, Except.ok_bind]
  rw [filterMap_flatten, sumList_map_flatten]
  simp [Counts.zero, Counts.zero_add, Function.comp_def]

/-! ## Assembly lemmas -/

theorem indexedRows_map_key (header : List String) (kc : List String) :
    ∀ (records : List (List String)) (i : Nat),
      (indexedRows header i records).map (fun e => key_tuple e.2 kc) =
        records.map (fun rec => key_tuple (mkRow header rec) kc) := by
  intro records
  induction records with
  | nil => intro i; rfl
  | cons rec rest ih => intro i; simp [indexedRows, ih]

theorem indexedRows_mem {header : List String} :
    ∀ {records : List (List String)} {i : Nat} {e : Nat × Row},
      e ∈ indexedRows header i records → ∃ rec ∈ records, e.2 = mkRow header rec := by
  intro records
  induction records with
  | nil => intro i e h; simp [indexedRows] at h
  | cons rec rest ih =>
    intro i e h
    rcases List.mem_cons.mp h with h1 | h1
    · exact ⟨rec, List.mem_cons_self _ _, by rw [h1]⟩
    · rcases ih h1 with ⟨r, hr, he⟩
      exact ⟨r, List.mem_cons_of_mem _ hr, he⟩

theorem perKeyEvent_isBody (kc cmp : List String) (emitU : Bool) (ra rb : Option Row)
    (k : List String) (e : Event) (h : perKeyEvent kc cmp emitU ra rb k = some e) :
    e.isBody = true := by
  cases ra with
  | none =>
    cases rb with
    | none => simp [perKeyEvent] at h
    | some row_b =>
      simp only [perKeyEvent] at h
      cases h
      rfl
  | some row_a =>
    cases rb with
    | none =>
      simp only [perKeyEvent] at h
      cases h
      rfl
    | some row_b =>
      simp only [perKeyEvent] at h
      by_cases hch : (changedColumns cmp row_a row_b).isEmpty
      · rw [if_pos hch] at h
        cases emitU
        · simp at h
        · simp only [if_pos rfl] at h
          cases h
          rfl
      · rw [if_neg hch] at h
        cases h
        rfl

theorem perIdxEvent_isBody (cmp : List String) (emitU : Bool) (ra rb : Option Row)
    (i : Nat) (e : Event) (h : perIdxEvent cmp emitU ra rb i = some e) :
    e.isBody = true := by
  cases ra with
  | none =>
    cases rb with
    | none => simp [perIdxEvent] at h
    | some row_b =>
      simp only [perIdxEvent] at h
      cases h
      rfl
  | some row_a =>
    cases rb with
    | none =>
      simp only [perIdxEvent] at h
      cases h
      rfl
    | some row_b =>
      simp only [perIdxEvent] at h
      by_cases hch : (changedColumns cmp row_a row_b).isEmpty
      · rw [if_pos hch] at h
        cases emitU
        · simp at h
        · simp only [if_pos rfl] at h
          cases h
          rfl
      · rw [if_neg hch] at h
        cases h
        rfl

theorem isBody_not_stats (e : Event) (h : e.isBody = true) : e.isStats = false := by
  cases e <;> simp_all [Event.isBody, Event.isStats]

theorem isBody_not_schema (e : Event) (h : e.isBody = true) : e.isSchema = false := by
  cases e <;> simp_all [Event.isBody, Event.isSchema]

theorem isBody_not_progress (e : Event) (h : e.isBody = true) : e.isProgress = false := by
  cases e <;> simp_all [Event.isBody, Event.isProgress]

theorem bodyEvents_shape (ca cb : List String) (l : List Event) (c : Counts)
    (h : ∀ e ∈ l, e.isBody = true) :
    bodyEvents (Event.schema ca cb :: l ++ [Event.stats c]) = l := by
  have hself : l.filter (fun e => e.isBody) = l := List.filter_eq_self.mpr h
  have h1 : (Event.schema ca cb).isBody = false := rfl
  have h2 : (Event.stats c).isBody = false := rfl
  simp [bodyEvents, List.filter_cons, List.filter_append, hself, h1, h2]

theorem statsEvents_shape (ca cb : List String) (l : List Event) (c : Counts)
    (h : ∀ e ∈ l, e.isBody = true) :
    statsEvents (Event.schema ca cb :: l ++ [Event.stats c]) = [Event.stats c] := by
  have hnil : l.filter (fun e => e.isStats) = [] :=
    List.filter_eq_nil_iff.mpr (fun e he => by simp [isBody_not_stats e (h e he)])
  have h1 : (Event.schema ca cb).isStats = false := rfl
  have h2 : (Event.stats c).isStats = true := rfl
  simp [statsEvents, List.filter_cons, List.filter_append, hnil, h1, h2]

theorem diff_csv_input_keyed (a_header_record : List String) (a_records : List (List String))
    (b_header_record : List String) (b_records : List (List String)) (options : DiffOptions)
    (hkc : options.key_columns ≠ [])
    (handA : (normalize_header a_header_record).Nodup)
    (handB : (normalize_header b_header_record).Nodup)
    (hwA : ∀ rec ∈ a_records, rec.length = (normalize_header a_header_record).length)
    (hwB : ∀ rec ∈ b_records, rec.length = (normalize_header b_header_record).length) :
    diff_csv_input a_header_record a_records b_header_record b_records options =
      diff_rows_keyed (normalize_header a_header_record)
        (indexedRows (normalize_header a_header_record) 2 a_records)
        (normalize_header b_header_record)
        (indexedRows (normalize_header b_header_record) 2 b_records) options := by
  have hne : options.key_columns.isEmpty = false := by
    cases hkcc : options.key_columns with
    | nil => exact absurd hkcc hkc
    | cons c rest => rfl
  simp only [diff_csv_input, read_csv_reader_ok _ _ "A" handA hwA,
    read_csv_reader_ok _ _ "B" handB hwB, Except.ok_bind, hne, Bool.false_eq_true,
    if_false]

/-- **C2**: for every valid keyed input (reconcilable headers, no duplicate
keys, no missing key values) and every partition count `P ≥ 1`, the
partitioned pipeline (`partition_inputs_to_spill` then
`diff_partitioned_from_manifest`) succeeds and produces the same multiset of
body events as the in-memory keyed diff (`diff_csv_files` on the same input
and options), and the two runs produce equal stats counters. -/
theorem c2_partitioned_matches_in_memory (a_header_record : List String)
    (a_records : List (List String)) (b_header_record : List String)
    (b_records : List (List String)) (options : DiffOptions) (P : Nat) (cmp : List String)
    (hkc : options.key_columns ≠ [])
    (hP : 1 ≤ P)
    (hcmp : comparison_columns (normalize_header a_header_record)
      (normalize_header b_header_record) options.header_mode = .ok cmp)
    (hva : ValidKeyedSide (normalize_header a_header_record) a_records options.key_columns)
    (hvb : ValidKeyedSide (normalize_header b_header_record) b_records options.key_columns) :
    ∃ mem_events part_events manifest,
      diff_csv_input a_header_record a_records b_header_record b_records options =
        .ok mem_events ∧
      partition_inputs_to_spill a_header_record a_records b_header_record b_records
        options P = .ok manifest ∧
      diff_partitioned_from_manifest manifest options = .ok part_events ∧
      List.Perm (bodyEvents part_events) (bodyEvents mem_events) ∧
      statsEvents part_events = statsEvents mem_events := by
  obtain ⟨handA, hkcA, hwA, hkeyA, hndA⟩ := hva
  obtain ⟨handB, hkcB, hwB, hkeyB, hndB⟩ := hvb
  have hakRows : ∀ e ∈ indexedRows (normalize_header a_header_record) 2 a_records,
      ∀ c ∈ options.key_columns, (assocGet e.2 c).getD "" ≠ "" := by
    intro e he c hc
    rcases indexedRows_mem he with ⟨rec, hrec, hrow⟩
    rw [hrow]
    exact hkeyA rec hrec c hc
  have hbkRows : ∀ e ∈ indexedRows (normalize_header b_header_record) 2 b_records,
      ∀ c ∈ options.key_columns, (assocGet e.2 c).getD "" ≠ "" := by
    intro e he c hc
    rcases indexedRows_mem he with ⟨rec, hrec, hrow⟩
    rw [hrow]
    exact hkeyB rec hrec c hc
  have hndRowsA : ((indexedRows (normalize_header a_header_record) 2 a_records).map
      (fun e => key_tuple e.2 options.key_columns)).Nodup := by
    rw [indexedRows_map_key]
    exact hndA
  have hndRowsB : ((indexedRows (normalize_header b_header_record) 2 b_records).map
      (fun e => key_tuple e.2 options.key_columns)).Nodup := by
    rw [indexedRows_map_key]
    exact hndB
  have hmem := diff_rows_keyed_char (normalize_header a_header_record)
    (normalize_header b_header_record)
    (indexedRows (normalize_header a_header_record) 2 a_records)
    (indexedRows (normalize_header b_header_record) 2 b_records) options cmp hcmp
    (fun c hc => ⟨hkcA c hc, hkcB c hc⟩) hakRows hbkRows hndRowsA hndRowsB
  have hdisp := diff_csv_input_keyed a_header_record a_records b_header_record b_records
    options hkc handA handB hwA hwB
  obtain ⟨ca, cb, hpart⟩ := partition_inputs_to_spill_ok a_header_record a_records
    b_header_record b_records options P cmp hP handA handB hcmp hkcA hkcB hwA hwB hkeyA hkeyB
  have hpdiff := diff_partitioned_from_manifest_char
    (normalize_header a_header_record) (normalize_header b_header_record) cmp
    (indexedRows (normalize_header a_header_record) 2 a_records)
    (indexedRows (normalize_header b_header_record) 2 b_records) options P hP
    a_records.length b_records.length ca cb hndRowsA hndRowsB
  rw [show rowsEntries options.key_columns
      (indexedRows (normalize_header a_header_record) 2 a_records) =
      rowsEntries options.key_columns
        (indexedRows (normalize_header a_header_record) 2 a_records) from rfl] at hpdiff
  refine ⟨_, _, _, hdisp.trans hmem, hpart, hpdiff, ?_, ?_⟩
  · rw [bodyEvents_shape _ _ _ _ (fun e he => by
      rcases List.mem_filterMap.mp he with ⟨k, _, hk⟩
      exact perKeyEvent_isBody _ _ _ _ _ _ _ hk)]
    rw [bodyEvents_shape _ _ _ _ (fun e he => by
      rcases List.mem_filterMap.mp he with ⟨k, _, hk⟩
      exact perKeyEvent_isBody _ _ _ _ _ _ _ hk)]
    exact (flatten_partition_keys_perm _ P hP).filterMap _
  · rw [statsEvents_shape _ _ _ _ (fun e he => by
      rcases List.mem_filterMap.mp he with ⟨k, _, hk⟩
      exact perKeyEvent_isBody _ _ _ _ _ _ _ hk)]
    rw [statsEvents_shape _ _ _ _ (fun e he => by
      rcases List.mem_filterMap.mp he with ⟨k, _, hk⟩
      exact perKeyEvent_isBody _ _ _ _ _ _ _ hk)]
    have hperm := (flatten_partition_keys_perm
      ((indexedRows (normalize_header a_header_record) 2 a_records).map
        (fun e => key_tuple e.2 options.key_columns) ++
       (indexedRows (normalize_header b_header_record) 2 b_records).map
        (fun e => key_tuple e.2 options.key_columns)) P hP)
    rw [Counts.sumList_perm (hperm.map _)]

/-- Witness for C2 at a concrete valid keyed input with `P = 4`. -/
theorem c2_witness :
    ∃ mem_events part_events manifest,
      diff_csv_input ["id", "name"] [["1", "Alice"], ["2", "Bob"]] ["id", "name"]
        [["1", "Alicia"], ["3", "Cara"]] ⟨["id"], .strict, false⟩ = .ok mem_events ∧
      partition_inputs_to_spill ["id", "name"] [["1", "Alice"], ["2", "Bob"]] ["id", "name"]
        [["1", "Alicia"], ["3", "Cara"]] ⟨["id"], .strict, false⟩ 4 = .ok manifest ∧
      diff_partitioned_from_manifest manifest ⟨["id"], .strict, false⟩ = .ok part_events ∧
      List.Perm (bodyEvents part_events) (bodyEvents mem_events) ∧
      statsEvents part_events = statsEvents mem_events :=
  c2_partitioned_matches_in_memory ["id", "name"] [["1", "Alice"], ["2", "Bob"]]
    ["id", "name"] [["1", "Alicia"], ["3", "Cara"]] ⟨["id"], .strict, false⟩ 4 ["id", "name"]
    (by decide) (by decide) (by rfl) (by decide) (by decide)

/-! ## Claims C6, C9, C10 -/

theorem stableKeyHashGo_eq : ∀ (parts : List String) (hash : Nat),
    stableKeyHashGo hash parts = (keyHashBytes (parts.map utf8Bytes)).foldl fnvStep hash
  | [], _ => rfl
  | [_], _ => rfl
  | p :: q :: rest, hash => by
    simp only [stableKeyHashGo, List.map_cons, keyHashBytes,
      stableKeyHashGo_eq (q :: rest), List.map_cons, List.foldl_append, List.foldl_cons]

/-- **C6**: the key hash is 64-bit FNV-1a (offset basis `0xcbf29ce484222325`,
prime `0x100000001b3`, multiplication modulo `2^64`) over the concatenation of
the key parts' UTF-8 bytes with a single `0x1F` byte between consecutive
parts; `["ab","c"]` and `["a","bc"]` hash differently; the partition index is
the hash modulo `max 1 partitions`, a pure function of the key tuple. -/
theorem c6_stable_key_hash_is_fnv1a :
    (∀ key_parts : List String,
      stable_key_hash key_parts = fnv1a64 (keyHashBytes (key_parts.map utf8Bytes))) ∧
    FNV_OFFSET_BASIS = 0xcbf29ce484222325 ∧
    FNV_PRIME = 0x100000001b3 ∧
    (∀ hash byte : Nat, fnvStep hash byte = ((hash ^^^ byte) * 0x100000001b3) % 2 ^ 64) ∧
    stable_key_hash ["ab", "c"] ≠ stable_key_hash ["a", "bc"] ∧
    (∀ (key_parts : List String) (partitions : Nat),
      partition_for_key key_parts partitions =
        stable_key_hash key_parts % max 1 partitions) := by
  refine ⟨?_, rfl, rfl, ?_, ?_, ?_⟩
  · intro key_parts
    rw [stable_key_hash, fnv1a64, stableKeyHashGo_eq]
  · intro hash byte
    rfl
  · decide
  · intro key_parts partitions
    rw [partition_for_key, Nat.max_comm]

/-- **C9**: with `emit_progress = true` and `progress_interval_events = 0`,
the driver does not reject the configuration: it clamps the interval to 1 and
delivers exactly the sequence it would deliver for
`progress_interval_events = 1`. -/
theorem c9_zero_interval_clamped_to_one (a_header_record : List String)
    (a_records : List (List String)) (b_header_record : List String)
    (b_records : List (List String)) (options : DiffOptions) :
    run_keyed_to_sink_with_config a_header_record a_records b_header_record b_records
        options ⟨true, 0⟩ =
      run_keyed_to_sink_with_config a_header_record a_records b_header_record b_records
        options ⟨true, 1⟩ := rfl

/-- **C10**: reading a valid side and in-range partition to which nothing was
ever appended yields the empty record list, not a `storage_error`; a
`storage_error` arises only for a side outside `{a, b}` or a partition id at
least the partition count.  A fresh store has no files, and appends touch
only their own (side, partition) cell. -/
theorem c10_read_spill_records_empty_and_errors (st : TempDirSpill) (side : String)
    (pid : Nat) :
    ((side = "a" ∨ side = "b") → pid < st.partitions → st.files side pid = none →
      read_spill_records st side pid = .ok []) ∧
    (∀ e, read_spill_records st side pid = .error e →
      ((side ≠ "a" ∧ side ≠ "b") ∨ st.partitions ≤ pid)) ∧
    (∀ P st₀, TempDirSpill.new P = .ok st₀ → st₀.files side pid = none) ∧
    (∀ (st' st'' : TempDirSpill) (side₂ : String) (pid₂ : Nat) (rec : SpillRecord),
      ¬ (side₂ = side ∧ pid₂ = pid) → st'.append side₂ pid₂ rec = .ok st'' →
      st''.files side pid = st'.files side pid) := by
  refine ⟨?_, ?_, ?_, ?_⟩
  · intro hside hpid hnone
    simp only [read_spill_records, TempDirSpill.validate_ok st side pid hside hpid,
      Except.ok_bind, hnone]
  · intro e herr
    by_cases hside : side = "a" ∨ side = "b"
    · by_cases hpid : pid < st.partitions
      · rw [read_spill_records, TempDirSpill.validate_ok st side pid hside hpid,
          Except.ok_bind] at herr
        cases hf : st.files side pid <;> rw [hf] at herr <;> exact Except.noConfusion herr
      · exact Or.inr (Nat.le_of_not_lt hpid)
    · push_neg at hside
      exact Or.inl hside
  · intro P st₀ hnew
    rw [TempDirSpill.new] at hnew
    by_cases hP : P = 0
    · rw [if_pos hP] at hnew
      exact Except.noConfusion hnew
    · rw [if_neg hP] at hnew
      cases hnew
      rfl
  · intro st' st'' side₂ pid₂ rec hne happ
    rw [TempDirSpill.append] at happ
    cases hv : st'.validate side₂ pid₂ with
    | error e => rw [hv] at happ; exact Except.noConfusion happ
    | ok u =>
      cases u
      rw [hv, Except.ok_bind] at happ
      cases happ
      exact if_neg (fun hc => hne ⟨hc.1.symm, hc.2.symm⟩)

theorem c10_read_spill_records_empty_and_errors_witness :
    read_spill_records ⟨2, fun _ _ => none⟩ "a" 1 = .ok [] :=
  (c10_read_spill_records_empty_and_errors ⟨2, fun _ _ => none⟩ "a" 1).1
    (Or.inl rfl) (by decide) rfl

/-! ## Claim C1 -/

theorem deliverLoop_false (interval total : Nat) :
    ∀ (idx : Nat) (events : List Event),
      deliverLoop false interval total idx events = events
  | _, [] => rfl
  | idx, e :: rest => by
    rw [deliverLoop, deliverLoop_false interval total (idx + 1) rest]
    rfl

/-- **C1**: the specification claims that a run config with
`partition_count = Some P` makes the driver deliver the partitioned path's
event sequence, falling back to the single-pass in-memory path only when
`partition_count` is absent or the diff is unkeyed.  The code diverges:
`EngineRunConfig` carries no `partition_count` field at all, and
`run_keyed_to_sink_with_config` unconditionally delivers the in-memory
sequence — first conjunct: with progress frames off, every configuration
delivers exactly `diff_csv_files`'s events; second conjunct: a keyed input
whose partitioned run (P = 2) produces an event sequence that no
configuration of the driver can ever deliver. -/
theorem c1_driver_never_takes_partitioned_path :
    (∀ (a_header_record : List String) (a_records : List (List String))
        (b_header_record : List String) (b_records : List (List String))
        (options : DiffOptions) (cfg : EngineRunConfig),
      cfg.emit_progress = false →
      run_keyed_to_sink_with_config a_header_record a_records b_header_record
          b_records options cfg =
        (diff_csv_input a_header_record a_records b_header_record b_records
          options).mapError EngineError.diff) ∧
    (∃ part_events : List Event,
      ((partition_inputs_to_spill ["id"] [["2"], ["3"]] ["id"] []
          ⟨["id"], .strict, false⟩ 2).bind
        (fun m => diff_partitioned_from_manifest m ⟨["id"], .strict, false⟩)) =
          .ok part_events ∧
      ∀ cfg : EngineRunConfig,
        run_keyed_to_sink_with_config ["id"] [["2"], ["3"]] ["id"] []
          ⟨["id"], .strict, false⟩ cfg ≠ .ok part_events) := by
  have h1 : ∀ (a_header_record : List String) (a_records : List (List String))
      (b_header_record : List String) (b_records : List (List String))
      (options : DiffOptions) (cfg : EngineRunConfig),
      cfg.emit_progress = false →
      run_keyed_to_sink_with_config a_header_record a_records b_header_record
          b_records options cfg =
        (diff_csv_input a_header_record a_records b_header_record b_records
          options).mapError EngineError.diff := by
    intro ah ar bh br opts cfg hfalse
    obtain ⟨ep, ival⟩ := cfg
    cases hfalse
    rw [run_keyed_to_sink_with_config]
    cases hres : diff_csv_input ah ar bh br opts with
    | error e => rfl
    | ok evs =>
      simp only [Except.mapError_ok, Except.ok_bind, deliverLoop_false,
        Bool.false_eq_true, if_false, List.nil_append]
  refine ⟨h1, ?_⟩
  refine ⟨[Event.schema ["id"] ["id"],
    Event.removed [("id", "3")] [("id", "3")],
    Event.removed [("id", "2")] [("id", "2")],
    Event.stats ⟨0, 0, 2, 0, 0⟩], by decide, ?_⟩
  intro cfg hcontra
  obtain ⟨ep, ival⟩ := cfg
  cases ep with
  | false =>
    rw [h1 _ _ _ _ _ ⟨false, ival⟩ rfl] at hcontra
    exact absurd hcontra (by decide)
  | true =>
    rw [run_keyed_to_sink_with_config,
      show diff_csv_input ["id"] [["2"], ["3"]] ["id"] [] ⟨["id"], .strict, false⟩ =
        .ok [Event.schema ["id"] ["id"],
          Event.removed [("id", "2")] [("id", "2")],
          Event.removed [("id", "3")] [("id", "3")],
          Event.stats ⟨0, 0, 2, 0, 0⟩] from by decide] at hcontra
    simp only [Except.mapError_ok, Except.ok_bind, if_true, progressEvent] at hcontra
    exact absurd (List.head_eq_of_cons_eq (Except.ok.inj hcontra)) (by decide)

theorem c1_driver_never_takes_partitioned_path_witness :
    run_keyed_to_sink_with_config ["id"] [["2"], ["3"]] ["id"] []
        ⟨["id"], .strict, false⟩ ⟨false, 1000⟩ =
      (diff_csv_input ["id"] [["2"], ["3"]] ["id"] []
        ⟨["id"], .strict, false⟩).mapError EngineError.diff :=
  c1_driver_never_takes_partitioned_path.1 ["id"] [["2"], ["3"]] ["id"] []
    ⟨["id"], .strict, false⟩ ⟨false, 1000⟩ rfl

/-! ## Claim C3 -/

theorem findRow_isSome (rows : List (Nat × Row)) (kc : List String) (k : List String) :
    (findRow rows kc k).isSome = true ↔ k ∈ rows.map (fun e => key_tuple e.2 kc) := by
  rw [findRow, List.find?_isSome]
  constructor
  · rintro ⟨e, he, hp⟩
    exact List.mem_map.mpr ⟨e, he, by simpa using hp⟩
  · intro hk
    rcases List.mem_map.mp hk with ⟨e, he, hkey⟩
    exact ⟨e, he, by simp [hkey]⟩

/-- **C3**: on a valid keyed input the keyed diff succeeds, and its body
events are generated from the duplicate-free union of the two sides' key
sets, traversed in lexicographic order of the key-part sequences, each key
contributing the per-key event of §4.6: `added` when the key is found only
in B, `removed` when only in A, `changed` when in both with a differing
comparison column, `unchanged` when in both with all comparison columns
equal — the last emitted only when `emit_unchanged` is true, in which case
every key of the union contributes exactly one body event. -/
theorem c3_keyed_diff_sorted_union_per_key (a_header : List String)
    (a_records : List (List String)) (b_header : List String)
    (b_records : List (List String)) (options : DiffOptions) (cmp : List String)
    (hcmp : comparison_columns a_header b_header options.header_mode = .ok cmp)
    (ha : ValidKeyedSide a_header a_records options.key_columns)
    (hb : ValidKeyedSide b_header b_records options.key_columns) :
    ∃ keys : List (List String),
      keys.Nodup ∧
      List.Sorted (fun k₁ k₂ => keyLeB k₁ k₂ = true) keys ∧
      (∀ k, k ∈ keys ↔
        (k ∈ a_records.map (fun rec => key_tuple (mkRow a_header rec) options.key_columns) ∨
         k ∈ b_records.map (fun rec => key_tuple (mkRow b_header rec) options.key_columns))) ∧
      (∀ k,
        (((findRow (indexedRows a_header 2 a_records) options.key_columns k).isSome = true) ↔
          k ∈ a_records.map (fun rec => key_tuple (mkRow a_header rec) options.key_columns)) ∧
        (((findRow (indexedRows b_header 2 b_records) options.key_columns k).isSome = true) ↔
          k ∈ b_records.map (fun rec => key_tuple (mkRow b_header rec) options.key_columns))) ∧
      (options.emit_unchanged = true → ∀ k ∈ keys,
        (perKeyEvent options.key_columns cmp options.emit_unchanged
          ((findRow (indexedRows a_header 2 a_records) options.key_columns k).map
            (fun e => e.2))
          ((findRow (indexedRows b_header 2 b_records) options.key_columns k).map
            (fun e => e.2)) k).isSome = true) ∧
      diff_rows_keyed a_header (indexedRows a_header 2 a_records) b_header
          (indexedRows b_header 2 b_records) options =
        .ok (Event.schema a_header b_header ::
          keys.filterMap (fun k =>
            perKeyEvent options.key_columns cmp options.emit_unchanged
              ((findRow (indexedRows a_header 2 a_records) options.key_columns k).map
                (fun e => e.2))
              ((findRow (indexedRows b_header 2 b_records) options.key_columns k).map
                (fun e => e.2)) k)
          ++ [Event.stats (Counts.sumList (keys.map (fun k =>
              perKeyCounts cmp
                ((findRow (indexedRows a_header 2 a_records) options.key_columns k).map
                  (fun e => e.2))
                ((findRow (indexedRows b_header 2 b_records) options.key_columns k).map
                  (fun e => e.2)))))]) := by
  obtain ⟨handA, hkcA, hwA, hkvA, hndA⟩ := ha
  obtain ⟨handB, hkcB, hwB, hkvB, hndB⟩ := hb
  have hmapA : (indexedRows a_header 2 a_records).map (fun e => key_tuple e.2 options.key_columns) =
      a_records.map (fun rec => key_tuple (mkRow a_header rec) options.key_columns) :=
    indexedRows_map_key a_header options.key_columns a_records 2
  have hmapB : (indexedRows b_header 2 b_records).map (fun e => key_tuple e.2 options.key_columns) =
      b_records.map (fun rec => key_tuple (mkRow b_header rec) options.key_columns) :=
    indexedRows_map_key b_header options.key_columns b_records 2
  have hmemiff : ∀ k : List String,
      k ∈ sortKeys (((indexedRows a_header 2 a_records).map
          (fun e => key_tuple e.2 options.key_columns) ++
        (indexedRows b_header 2 b_records).map
          (fun e => key_tuple e.2 options.key_columns)).dedup) ↔
      (k ∈ a_records.map (fun rec => key_tuple (mkRow a_header rec) options.key_columns) ∨
       k ∈ b_records.map (fun rec => key_tuple (mkRow b_header rec) options.key_columns)) := by
    intro k
    rw [(sortKeys_perm _).mem_iff, List.mem_dedup, List.mem_append, hmapA, hmapB]
  refine ⟨sortKeys (((indexedRows a_header 2 a_records).map
      (fun e => key_tuple e.2 options.key_columns) ++
    (indexedRows b_header 2 b_records).map
      (fun e => key_tuple e.2 options.key_columns)).dedup), ?_, ?_, hmemiff, ?_, ?_, ?_⟩
  · exact ((sortKeys_perm _).nodup_iff).mpr (List.nodup_dedup _)
  · exact sortKeys_sorted _
  · intro k
    rw [findRow_isSome, findRow_isSome, hmapA, hmapB]
    exact ⟨Iff.rfl, Iff.rfl⟩
  · intro hemit k hk
    rcases (hmemiff k).mp hk with hkA | hkB
    · obtain ⟨e, he⟩ := Option.isSome_iff_exists.mp
        ((findRow_isSome (indexedRows a_header 2 a_records) options.key_columns k).mpr
          (by rw [hmapA]; exact hkA))
      rw [he]
      cases hfb : findRow (indexedRows b_header 2 b_records) options.key_columns k with
      | none =>
        show (perKeyEvent options.key_columns cmp options.emit_unchanged
          (some e.2) none k).isSome = true
        rfl
      | some eb =>
        rw [hemit]
        show (perKeyEvent options.key_columns cmp true (some e.2) (some eb.2) k).isSome = true
        simp only [perKeyEvent]
        split
        · simp
        · simp
    · obtain ⟨e, he⟩ := Option.isSome_iff_exists.mp
        ((findRow_isSome (indexedRows b_header 2 b_records) options.key_columns k).mpr
          (by rw [hmapB]; exact hkB))
      rw [he]
      cases hfa : findRow (indexedRows a_header 2 a_records) options.key_columns k with
      | none =>
        show (perKeyEvent options.key_columns cmp options.emit_unchanged
          none (some e.2) k).isSome = true
        rfl
      | some ea =>
        rw [hemit]
        show (perKeyEvent options.key_columns cmp true (some ea.2) (some e.2) k).isSome = true
        simp only [perKeyEvent]
        split
        · simp
        · simp
  · refine diff_rows_keyed_char a_header b_header (indexedRows a_header 2 a_records)
      (indexedRows b_header 2 b_records) options cmp hcmp
      (fun c hc => ⟨hkcA c hc, hkcB c hc⟩) ?_ ?_
      (by rw [hmapA]; exact hndA) (by rw [hmapB]; exact hndB)
    · intro e he c hc
      obtain ⟨rec, hrec, he2⟩ := indexedRows_mem he
      rw [he2]
      exact hkvA rec hrec c hc
    · intro e he c hc
      obtain ⟨rec, hrec, he2⟩ := indexedRows_mem he
      rw [he2]
      exact hkvB rec hrec c hc

theorem c3_keyed_diff_sorted_union_per_key_witness :
    ∃ keys : List (List String),
      keys.Nodup ∧
      List.Sorted (fun k₁ k₂ => keyLeB k₁ k₂ = true) keys ∧
      (∀ k, k ∈ keys ↔
        (k ∈ [["1", "Alice"], ["2", "Bob"]].map
            (fun rec => key_tuple (mkRow ["id", "name"] rec) ["id"]) ∨
         k ∈ [["1", "Alicia"], ["3", "Cara"]].map
            (fun rec => key_tuple (mkRow ["id", "name"] rec) ["id"]))) ∧
      (∀ k,
        (((findRow (indexedRows ["id", "name"] 2 [["1", "Alice"], ["2", "Bob"]])
              ["id"] k).isSome = true) ↔
          k ∈ [["1", "Alice"], ["2", "Bob"]].map
            (fun rec => key_tuple (mkRow ["id", "name"] rec) ["id"])) ∧
        (((findRow (indexedRows ["id", "name"] 2 [["1", "Alicia"], ["3", "Cara"]])
              ["id"] k).isSome = true) ↔
          k ∈ [["1", "Alicia"], ["3", "Cara"]].map
            (fun rec => key_tuple (mkRow ["id", "name"] rec) ["id"]))) ∧
      (false = true → ∀ k ∈ keys,
        (perKeyEvent ["id"] ["id", "name"] false
          ((findRow (indexedRows ["id", "name"] 2 [["1", "Alice"], ["2", "Bob"]])
            ["id"] k).map (fun e => e.2))
          ((findRow (indexedRows ["id", "name"] 2 [["1", "Alicia"], ["3", "Cara"]])
            ["id"] k).map (fun e => e.2)) k).isSome = true) ∧
      diff_rows_keyed ["id", "name"]
          (indexedRows ["id", "name"] 2 [["1", "Alice"], ["2", "Bob"]]) ["id", "name"]
          (indexedRows ["id", "name"] 2 [["1", "Alicia"], ["3", "Cara"]])
          ⟨["id"], .strict, false⟩ =
        .ok (Event.schema ["id", "name"] ["id", "name"] ::
          keys.filterMap (fun k =>
            perKeyEvent ["id"] ["id", "name"] false
              ((findRow (indexedRows ["id", "name"] 2 [["1", "Alice"], ["2", "Bob"]])
                ["id"] k).map (fun e => e.2))
              ((findRow (indexedRows ["id", "name"] 2 [["1", "Alicia"], ["3", "Cara"]])
                ["id"] k).map (fun e => e.2)) k)
          ++ [Event.stats (Counts.sumList (keys.map (fun k =>
              perKeyCounts ["id", "name"]
                ((findRow (indexedRows ["id", "name"] 2 [["1", "Alice"], ["2", "Bob"]])
                  ["id"] k).map (fun e => e.2))
                ((findRow (indexedRows ["id", "name"] 2 [["1", "Alicia"], ["3", "Cara"]])
                  ["id"] k).map (fun e => e.2)))))]) :=
  c3_keyed_diff_sorted_union_per_key ["id", "name"] [["1", "Alice"], ["2", "Bob"]]
    ["id", "name"] [["1", "Alicia"], ["3", "Cara"]] ⟨["id"], .strict, false⟩
    ["id", "name"] (by decide) (by decide) (by decide)

/-! ## Claim C7 -/

theorem indexedRows_fst_le {header : List String} :
    ∀ {records : List (List String)} {i : Nat} {e : Nat × Row},
      e ∈ indexedRows header i records → i ≤ e.1 := by
  intro records
  induction records with
  | nil => intro i e h; simp [indexedRows] at h
  | cons rec rest ih =>
    intro i e h
    rcases List.mem_cons.mp h with h1 | h1
    · rw [h1]
    · exact Nat.le_of_succ_le (ih h1)

theorem indexedRows_pairwise (header : List String) :
    ∀ (records : List (List String)) (i : Nat),
      List.Pairwise (fun a b : Nat × Row => a.1 < b.1) (indexedRows header i records) := by
  intro records
  induction records with
  | nil => intro i; exact List.Pairwise.nil
  | cons rec rest ih =>
    intro i
    refine List.Pairwise.cons ?_ (ih (i + 1))
    intro e he
    exact Nat.lt_of_succ_le (indexedRows_fst_le he)

theorem indexRowsGo_dup (kc : List String) (side : String) :
    ∀ (todo done : List (Nat × Row)),
      (∀ e ∈ todo, ∀ c ∈ kc, (assocGet e.2 c).getD "" ≠ "") →
      (done.map (fun e => key_tuple e.2 kc)).Nodup →
      List.Pairwise (fun a b : Nat × Row => a.1 < b.1) (done ++ todo) →
      ¬ ((done ++ todo).map (fun e => key_tuple e.2 kc)).Nodup →
      ∃ p q : Nat × Row,
        indexRowsGo kc side (done.map (fun e => (key_tuple e.2 kc, e.1, e.2))) todo =
          .error ⟨"duplicate_key", duplicateKeyMsg side kc (key_tuple q.2 kc) p.1 q.1⟩ ∧
        p ∈ done ++ todo ∧ q ∈ todo ∧ key_tuple p.2 kc = key_tuple q.2 kc ∧ p.1 < q.1 := by
  intro todo
  induction todo with
  | nil =>
    intro done _ hnd _ hdup
    exact absurd (by simpa using hnd) hdup
  | cons e rest ih =>
    intro done hkeys hnd hpw hdup
    obtain ⟨i, row⟩ := e
    have hck := checkRowKeys_ok side i row kc (hkeys (i, row) (List.mem_cons_self _ _))
    cases hget : assocGet (done.map (fun e => (key_tuple e.2 kc, e.1, e.2)))
        (key_tuple row kc) with
    | some pr =>
      obtain ⟨prior, rowp⟩ := pr
      rcases List.mem_map.mp (assocGet_mem hget) with ⟨p, hp, hpe⟩
      have hp1 : p.1 = prior := congrArg (fun x : List String × Nat × Row => x.2.1) hpe
      have hpk : key_tuple p.2 kc = key_tuple row kc :=
        congrArg (fun x : List String × Nat × Row => x.1) hpe
      have hlt : p.1 < i := by
        have hall := (List.pairwise_append.mp hpw).2.2
        exact hall p hp (i, row) (List.mem_cons_self _ _)
      refine ⟨p, (i, row), ?_, List.mem_append_left _ hp,
        List.mem_cons_self _ _, hpk, hlt⟩
      simp only [indexRowsGo, hck, Except.ok_bind, hget, hp1]
    | none =>
      have hknotin : key_tuple row kc ∉ done.map (fun e => key_tuple e.2 kc) := by
        have := (assocGet_eq_none_iff _ _).mp hget
        intro habs
        rcases List.mem_map.mp habs with ⟨d, hd, hdk⟩
        exact this (by
          refine List.mem_map.mpr ⟨(key_tuple d.2 kc, d.1, d.2), List.mem_map.mpr ⟨d, hd, rfl⟩, ?_⟩
          rw [hdk])
      have hassoc : done ++ (i, row) :: rest = (done ++ [(i, row)]) ++ rest := by
        rw [List.append_assoc]
        rfl
      have hnd' : ((done ++ [(i, row)]).map (fun e => key_tuple e.2 kc)).Nodup := by
        rw [List.map_append]
        refine List.Nodup.append hnd (List.nodup_singleton _) ?_
        intro x hx hy
        have hy' : x = key_tuple row kc := by simpa using hy
        rw [hy'] at hx
        exact hknotin hx
      have hpw' : List.Pairwise (fun a b : Nat × Row => a.1 < b.1)
          ((done ++ [(i, row)]) ++ rest) := by
        rw [← hassoc]
        exact hpw
      have hdup' : ¬ (((done ++ [(i, row)]) ++ rest).map
          (fun e => key_tuple e.2 kc)).Nodup := by
        rw [← hassoc]
        exact hdup
      have hrec := ih (done ++ [(i, row)])
        (fun e he c hc => hkeys e (List.mem_cons_of_mem _ he) c hc) hnd' hpw' hdup'
      rcases hrec with ⟨p, q, herr, hp, hq, hkey, hlt⟩
      refine ⟨p, q, ?_, by rw [hassoc]; exact hp, List.mem_cons_of_mem _ hq, hkey, hlt⟩
      simp only [indexRowsGo, hck, Except.ok_bind, hget]
      rw [← herr, List.map_append]
      rfl

theorem indexSpillGo_dup (kc : List String) (side : String) :
    ∀ (todo done : List SpillRecord),
      (done.map (fun r => r.key)).Nodup →
      List.Pairwise (fun r s : SpillRecord => r.row_index < s.row_index) (done ++ todo) →
      ¬ ((done ++ todo).map (fun r => r.key)).Nodup →
      ∃ r s : SpillRecord,
        indexSpillGo kc side (done.map (fun r => (r.key, r))) todo =
          .error (diff_error "duplicate_key"
            (duplicateKeyMsg side kc s.key r.row_index s.row_index)) ∧
        r ∈ done ++ todo ∧ s ∈ todo ∧ r.key = s.key ∧ r.row_index < s.row_index := by
  intro todo
  induction todo with
  | nil =>
    intro done hnd _ hdup
    exact absurd (by simpa using hnd) hdup
  | cons c rest ih =>
    intro done hnd hpw hdup
    cases hget : assocGet (done.map (fun r => (r.key, r))) c.key with
    | some pr =>
      rcases List.mem_map.mp (assocGet_mem hget) with ⟨p, hp, hpe⟩
      have hp1 : p.row_index = pr.row_index := by
        have : p = pr := congrArg (fun x : List String × SpillRecord => x.2) hpe
        rw [this]
      have hpk : p.key = c.key :=
        congrArg (fun x : List String × SpillRecord => x.1) hpe
      have hlt : p.row_index < c.row_index := by
        have hall := (List.pairwise_append.mp hpw).2.2
        exact hall p hp c (List.mem_cons_self _ _)
      refine ⟨p, c, ?_, List.mem_append_left _ hp, List.mem_cons_self _ _, hpk, hlt⟩
      simp only [indexSpillGo, hget, hp1]
    | none =>
      have hknotin : c.key ∉ done.map (fun r => r.key) := by
        have := (assocGet_eq_none_iff _ _).mp hget
        intro habs
        rcases List.mem_map.mp habs with ⟨d, hd, hdk⟩
        exact this (by
          refine List.mem_map.mpr ⟨(d.key, d), List.mem_map.mpr ⟨d, hd, rfl⟩, ?_⟩
          rw [hdk])
      have hassoc : done ++ c :: rest = (done ++ [c]) ++ rest := by
        rw [List.append_assoc]
        rfl
      have hnd' : ((done ++ [c]).map (fun r => r.key)).Nodup := by
        rw [List.map_append]
        refine List.Nodup.append hnd (List.nodup_singleton _) ?_
        intro x hx hy
        have hy' : x = c.key := by simpa using hy
        rw [hy'] at hx
        exact hknotin hx
      have hpw' : List.Pairwise (fun r s : SpillRecord => r.row_index < s.row_index)
          ((done ++ [c]) ++ rest) := by
        rw [← hassoc]
        exact hpw
      have hdup' : ¬ (((done ++ [c]) ++ rest).map (fun r => r.key)).Nodup := by
        rw [← hassoc]
        exact hdup
      rcases ih (done ++ [c]) hnd' hpw' hdup' with ⟨r, s, herr, hr, hs, hkey, hlt⟩
      refine ⟨r, s, ?_, by rw [hassoc]; exact hr, List.mem_cons_of_mem _ hs, hkey, hlt⟩
      simp only [indexSpillGo, hget]
      rw [← herr, List.map_append]
      rfl

/-- **C7**: when some key tuple occurs in two rows of one side, indexing
fails with code `duplicate_key`, and the message cites the two offending
1-based CSV row indices in encounter order — the earlier (smaller) index as
the prior row, the later as the current — in the in-memory indexer
(`index_rows`, data rows numbered from 2) and likewise in the per-partition
spill indexer (`index_spill_records`) for any record list with increasing
row indices. -/
theorem c7_duplicate_key_cites_rows_in_order :
    (∀ (header : List String) (records : List (List String)) (kc : List String)
        (side : String),
      (∀ rec ∈ records, ∀ c ∈ kc, (assocGet (mkRow header rec) c).getD "" ≠ "") →
      ¬ (records.map (fun rec => key_tuple (mkRow header rec) kc)).Nodup →
      ∃ p q : Nat × Row,
        index_rows (indexedRows header 2 records) kc side =
          .error ⟨"duplicate_key", duplicateKeyMsg side kc (key_tuple q.2 kc) p.1 q.1⟩ ∧
        p ∈ indexedRows header 2 records ∧ q ∈ indexedRows header 2 records ∧
        key_tuple p.2 kc = key_tuple q.2 kc ∧ 2 ≤ p.1 ∧ p.1 < q.1) ∧
    (∀ (records : List SpillRecord) (kc : List String) (side : String),
      List.Pairwise (fun r s : SpillRecord => r.row_index < s.row_index) records →
      ¬ (records.map (fun r => r.key)).Nodup →
      ∃ r s : SpillRecord,
        index_spill_records records kc side =
          .error (diff_error "duplicate_key"
            (duplicateKeyMsg side kc s.key r.row_index s.row_index)) ∧
        r ∈ records ∧ s ∈ records ∧ r.key = s.key ∧ r.row_index < s.row_index) := by
  constructor
  · intro header records kc side hkeys hdup
    have hkeys' : ∀ e ∈ indexedRows header 2 records, ∀ c ∈ kc,
        (assocGet e.2 c).getD "" ≠ "" := by
      intro e he c hc
      obtain ⟨rec, hrec, he2⟩ := indexedRows_mem he
      rw [he2]
      exact hkeys rec hrec c hc
    rcases indexRowsGo_dup kc side (indexedRows header 2 records) [] hkeys'
      List.nodup_nil (by rw [List.nil_append]; exact indexedRows_pairwise header records 2)
      (by rw [List.nil_append, indexedRows_map_key]; exact hdup)
      with ⟨p, q, herr, hp, hq, hkey, hlt⟩
    rw [List.nil_append] at hp
    exact ⟨p, q, herr, hp, hq, hkey, indexedRows_fst_le hp, hlt⟩
  · intro records kc side hpw hdup
    rcases indexSpillGo_dup kc side records [] List.nodup_nil
      (by rw [List.nil_append]; exact hpw)
      (by rw [List.nil_append]; exact hdup) with ⟨r, s, herr, hr, hs, hkey, hlt⟩
    rw [List.nil_append] at hr
    exact ⟨r, s, herr, hr, hs, hkey, hlt⟩

theorem c7_duplicate_key_cites_rows_in_order_witness :
    ∃ p q : Nat × Row,
      index_rows (indexedRows ["id"] 2 [["7"], ["7"]]) ["id"] "A" =
        .error ⟨"duplicate_key",
          duplicateKeyMsg "A" ["id"] (key_tuple q.2 ["id"]) p.1 q.1⟩ ∧
      p ∈ indexedRows ["id"] 2 [["7"], ["7"]] ∧ q ∈ indexedRows ["id"] 2 [["7"], ["7"]] ∧
      key_tuple p.2 ["id"] = key_tuple q.2 ["id"] ∧ 2 ≤ p.1 ∧ p.1 < q.1 :=
  c7_duplicate_key_cites_rows_in_order.1 ["id"] [["7"], ["7"]] ["id"] "A"
    (by decide) (by decide)

/-! ## Claim C4 -/

theorem notProgress_progressEvent (d t : Nat) :
    notProgress (progressEvent d t) = false := rfl

theorem deliverLoop_filter_not_progress (emitP : Bool) (interval total : Nat) :
    ∀ (idx : Nat) (events : List Event),
      (deliverLoop emitP interval total idx events).filter notProgress =
        events.filter notProgress
  | _, [] => rfl
  | idx, e :: rest => by
    have hrec := deliverLoop_filter_not_progress emitP interval total (idx + 1) rest
    cases hcond : emitP && (idx + 1 == total || (idx + 1) % interval == 0) with
    | false =>
      simp only [deliverLoop, hcond, Bool.false_eq_true, if_false, List.nil_append,
        List.filter_cons, hrec]
    | true =>
      simp only [deliverLoop, hcond, if_true, List.singleton_append, List.filter_cons,
        notProgress_progressEvent, Bool.false_eq_true, if_false, hrec]

/-- **C4** (amended): the original claim — the delivered sequence itself
begins with the schema event and ends with the stats event under every
option combination including `emit_progress = true` — is false: with
progress enabled the driver delivers a progress frame before the schema
event and another after the stats event.  What holds is: whenever the
in-memory diff succeeds with an event list that begins with schema and ends
with stats, the driver delivers, for every configuration, a sequence whose
subsequence of non-progress events is exactly the diff's own non-progress
subsequence — so when the diff's events carry no progress frames, the
non-progress subsequence of the delivery begins with schema and ends with
stats — and with `emit_progress = false` the delivered sequence is the
diff's event list itself, beginning with schema and ending with stats. -/
theorem c4_schema_first_stats_last_amended (a_header_record : List String)
    (a_records : List (List String)) (b_header_record : List String)
    (b_records : List (List String)) (options : DiffOptions)
    (cfg : EngineRunConfig) (events : List Event)
    (hok : diff_csv_input a_header_record a_records b_header_record b_records options =
      .ok events)
    (hshape : startsSchemaEndsStats events = true) :
    ∃ delivered : List Event,
      run_keyed_to_sink_with_config a_header_record a_records b_header_record b_records
        options cfg = .ok delivered ∧
      delivered.filter notProgress = events.filter notProgress ∧
      ((∀ e ∈ events, e.isProgress = false) →
        startsSchemaEndsStats (delivered.filter notProgress) = true) ∧
      (cfg.emit_progress = false →
        delivered = events ∧ startsSchemaEndsStats delivered = true) := by
  obtain ⟨ep, ival⟩ := cfg
  refine ⟨(if ep then [progressEvent 0 events.length] else []) ++
    deliverLoop ep (max ival 1) events.length 0 events, ?_, ?_, ?_, ?_⟩
  · rw [run_keyed_to_sink_with_config, hok]
    rfl
  · rw [List.filter_append, deliverLoop_filter_not_progress]
    cases ep with
    | false => rfl
    | true =>
      rw [if_pos rfl,
        show List.filter notProgress [progressEvent 0 events.length] = [] from rfl,
        List.nil_append]
  · intro hnp
    rw [List.filter_append, deliverLoop_filter_not_progress]
    have hfe : events.filter notProgress = events :=
      List.filter_eq_self.mpr (fun e he => by
        rw [notProgress, hnp e he]
        rfl)
    cases ep with
    | false =>
      rw [if_neg Bool.false_ne_true, List.filter_nil, List.nil_append, hfe]
      exact hshape
    | true =>
      rw [if_pos rfl,
        show List.filter notProgress [progressEvent 0 events.length] = [] from rfl,
        List.nil_append, hfe]
      exact hshape
  · intro hep
    cases hep
    rw [if_neg Bool.false_ne_true, List.nil_append, deliverLoop_false]
    exact ⟨rfl, hshape⟩

theorem c4_progress_frames_outside_schema_stats :
    (run_keyed_to_sink_with_config ["id"] [] ["id"] [] ⟨["id"], .strict, false⟩
      ⟨true, 1000⟩).map startsSchemaEndsStats = .ok false := by
  decide

theorem c4_schema_first_stats_last_amended_witness :
    ∃ delivered : List Event,
      run_keyed_to_sink_with_config ["id"] [] ["id"] [] ⟨["id"], .strict, false⟩
        ⟨true, 1000⟩ = .ok delivered ∧
      delivered.filter notProgress =
        [Event.schema ["id"] ["id"], Event.stats ⟨0, 0, 0, 0, 0⟩].filter notProgress ∧
      ((∀ e ∈ [Event.schema ["id"] ["id"], Event.stats ⟨0, 0, 0, 0, 0⟩],
          e.isProgress = false) →
        startsSchemaEndsStats (delivered.filter notProgress) = true) ∧
      ((⟨true, 1000⟩ : EngineRunConfig).emit_progress = false →
        delivered = [Event.schema ["id"] ["id"], Event.stats ⟨0, 0, 0, 0, 0⟩] ∧
        startsSchemaEndsStats delivered = true) :=
  c4_schema_first_stats_last_amended ["id"] [] ["id"] [] ⟨["id"], .strict, false⟩
    ⟨true, 1000⟩ [Event.schema ["id"] ["id"], Event.stats ⟨0, 0, 0, 0, 0⟩]
    (by decide) (by decide)

/-! ## Claim C5 -/

theorem deliverLoop_true_spec (interval total : Nat) :
    ∀ (events : List Event) (idx : Nat),
      deliverLoop true interval total idx events =
        ((events.enumFrom idx).map (fun p =>
          p.2 :: (if p.1 + 1 = total ∨ (p.1 + 1) % interval = 0
                  then [progressEvent (p.1 + 1) total] else []))).flatten
  | [], _ => rfl
  | e :: rest, idx => by
    have hif : (if (true && ((idx + 1 == total) || ((idx + 1) % interval == 0))) = true
        then [progressEvent (idx + 1) total] else []) =
        (if idx + 1 = total ∨ (idx + 1) % interval = 0
        then [progressEvent (idx + 1) total] else []) := by
      by_cases h : idx + 1 = total ∨ (idx + 1) % interval = 0
      · rw [if_pos h, if_pos (by simpa using h)]
      · rw [if_neg h, if_neg (by simpa using h)]
    rw [deliverLoop, deliverLoop_true_spec interval total rest (idx + 1),
      List.enumFrom_cons, List.map_cons, List.flatten_cons, List.cons_append, ← hif]

/-- **C5** (amended): the original claim — progress frames appear after
every `progress_interval_events` *body* events — is false: the driver
counts every delivered event (schema and stats included) against the
interval.  What holds is: with `emit_progress = true` the driver delivers
one frame carrying `events_done = 0` before any event of the diff, then
after the `(i+1)`-st delivered event a frame carrying `events_done = i+1`
exactly when `i+1` is the total or a multiple of
`max progress_interval_events 1`; every frame carries
`phase = "emit_events"` and `events_total`, the length of the diff's own
event list, schema and stats events included. -/
theorem c5_progress_frames_amended (a_header_record : List String)
    (a_records : List (List String)) (b_header_record : List String)
    (b_records : List (List String)) (options : DiffOptions)
    (cfg : EngineRunConfig) (events : List Event)
    (hep : cfg.emit_progress = true)
    (hok : diff_csv_input a_header_record a_records b_header_record b_records options =
      .ok events) :
    run_keyed_to_sink_with_config a_header_record a_records b_header_record b_records
        options cfg =
      .ok (specProgressInterleaving events (max cfg.progress_interval_events 1)) := by
  obtain ⟨ep, ival⟩ := cfg
  cases hep
  rw [run_keyed_to_sink_with_config, hok]
  simp only [Except.mapError_ok, Except.ok_bind]
  rw [specProgressInterleaving, deliverLoop_true_spec]
  rfl

theorem c5_progress_counts_all_delivered_events :
    (run_keyed_to_sink_with_config ["id", "v"] [["1", "a"]] ["id", "v"] [["1", "b"]]
        ⟨["id"], .strict, false⟩ ⟨true, 2⟩).map
      (fun d => ((d.filter (fun e => e.isProgress)).length, (bodyEvents d).length)) =
      .ok (3, 1) ∧
    claimC5FrameCount 1 2 ≠ 3 := by
  exact ⟨by decide, by decide⟩

theorem c5_progress_frames_amended_witness :
    run_keyed_to_sink_with_config ["id", "v"] [["1", "a"]] ["id", "v"] [["1", "b"]]
        ⟨["id"], .strict, false⟩ ⟨true, 2⟩ =
      .ok (specProgressInterleaving
        [Event.schema ["id", "v"] ["id", "v"],
         Event.changed [("id", "1")] ["v"] [("id", "1"), ("v", "a")]
           [("id", "1"), ("v", "b")] [("v", "a", "b")],
         Event.stats ⟨1, 0, 0, 1, 0⟩] (max 2 1)) :=
  c5_progress_frames_amended ["id", "v"] [["1", "a"]] ["id", "v"] [["1", "b"]]
    ⟨["id"], .strict, false⟩ ⟨true, 2⟩
    [Event.schema ["id", "v"] ["id", "v"],
     Event.changed [("id", "1")] ["v"] [("id", "1"), ("v", "a")]
       [("id", "1"), ("v", "b")] [("v", "a", "b")],
     Event.stats ⟨1, 0, 0, 1, 0⟩] rfl (by decide)

/-! ## Claim C8 -/

theorem mem_foldl_mapInsert {α : Type} :
    ∀ (l : List (String × α)) (m : List (String × α)) (x : String × α),
      x ∈ l.foldl (fun acc kv => mapInsert kv.1 kv.2 acc) m → x ∈ m ∨ x ∈ l
  | [], _, _, h => Or.inl h
  | kv :: rest, m, x, h => by
    rcases mem_foldl_mapInsert rest (mapInsert kv.1 kv.2 m) x h with h1 | h1
    · rcases mem_mapInsert h1 with h2 | h2
      · exact Or.inr (by rw [h2]; exact List.mem_cons_self _ _)
      · exact Or.inl h2
    · exact Or.inr (List.mem_cons_of_mem _ h1)

theorem mem_buildMap {α : Type} {l : List (String × α)} {x : String × α}
    (h : x ∈ buildMap l) : x ∈ l := by
  rcases mem_foldl_mapInsert l [] x h with h1 | h1
  · simp at h1
  · exact h1

theorem assocGet_mkRow_of_not_mem (header record : List String) (c : String)
    (hc : c ∉ header) : assocGet (mkRow header record) c = none := by
  rw [assocGet_eq_none_iff]
  intro hmem
  rcases List.mem_map.mp hmem with ⟨p, hp, hfst⟩
  have hin : p ∈ header.zip record := mem_buildMap hp
  have hmem' : p.1 ∈ (header.zip record).map Prod.fst := List.mem_map.mpr ⟨p, hin, rfl⟩
  exact hc ((zip_map_fst_sublist header record).subset (hfst ▸ hmem'))

theorem mkRow_ext_of_cmp (a_header b_header cmp : List String) (recA recB : List String)
    (hcovA : ∀ c ∈ a_header, c ∈ cmp) (hcovB : ∀ c ∈ b_header, c ∈ cmp)
    (heq : ∀ c ∈ cmp, assocGet (mkRow a_header recA) c = assocGet (mkRow b_header recB) c) :
    mkRow a_header recA = mkRow b_header recB := by
  refine map_ext_pairwise _ _ (buildMap_pairwise _) (buildMap_pairwise _) ?_
  intro k
  by_cases hk : k ∈ cmp
  · exact heq k hk
  · rw [assocGet_mkRow_of_not_mem a_header recA k (fun h => hk (hcovA k h)),
      assocGet_mkRow_of_not_mem b_header recB k (fun h => hk (hcovB k h))]

theorem comparison_columns_swap (a_header b_header : List String) (mode : HeaderMode)
    (cmp : List String) (h : comparison_columns a_header b_header mode = .ok cmp) :
    comparison_columns b_header a_header mode = .ok cmp := by
  cases mode with
  | strict =>
    rw [comparison_columns] at h ⊢
    split at h
    · exact Except.noConfusion h
    · next hne =>
      push_neg at hne
      rw [if_neg (fun hc => hc hne.symm), ← hne]
      exact h
  | sorted =>
    rw [comparison_columns] at h ⊢
    split at h
    · exact Except.noConfusion h
    · next hne =>
      push_neg at hne
      rw [if_neg (fun hc => hc hne.symm), ← hne]
      exact h

theorem comparison_columns_covers (a_header b_header : List String) (mode : HeaderMode)
    (cmp : List String) (h : comparison_columns a_header b_header mode = .ok cmp) :
    (∀ c ∈ a_header, c ∈ cmp) ∧ (∀ c ∈ b_header, c ∈ cmp) := by
  cases mode with
  | strict =>
    rw [comparison_columns] at h
    split at h
    · exact Except.noConfusion h
    · next hne =>
      push_neg at hne
      cases h
      exact ⟨fun c hc => hc, fun c hc => hne ▸ hc⟩
  | sorted =>
    rw [comparison_columns] at h
    split at h
    · exact Except.noConfusion h
    · next hne =>
      push_neg at hne
      cases h
      constructor
      · intro c hc
        exact (sortStrings_perm a_header).mem_iff.mpr hc
      · intro c hc
        rw [hne]
        exact (sortStrings_perm b_header).mem_iff.mpr hc

theorem changedColumns_symm (cmp : List String) (ra rb : Row) :
    changedColumns cmp rb ra = changedColumns cmp ra rb := by
  rw [changedColumns, changedColumns]
  refine List.filter_congr ?_
  intro c _
  exact decide_eq_decide.mpr ne_comm

theorem deltaMap_swap (cc : List String) (ra rb : Row) :
    deltaMap cc rb ra = (deltaMap cc ra rb).map (fun d => (d.1, d.2.2, d.2.1)) := by
  have h := buildMap_map_value (fun v : String × String => (v.2, v.1))
    (cc.map (fun column =>
      (column, ((assocGet ra column).getD "", (assocGet rb column).getD ""))))
  rw [List.map_map] at h
  exact h

theorem perKeyEvent_swap (kc cmp : List String) (eu : Bool) (in_a in_b : Option Row)
    (k : List String)
    (hext : ∀ ra rb, in_a = some ra → in_b = some rb →
      changedColumns cmp ra rb = [] → ra = rb) :
    perKeyEvent kc cmp eu in_b in_a k =
      (perKeyEvent kc cmp eu in_a in_b k).map swapEvent := by
  cases in_a with
  | none =>
    cases in_b with
    | none => rfl
    | some rb => rfl
  | some ra =>
    cases in_b with
    | none => rfl
    | some rb =>
      show (if (changedColumns cmp rb ra).isEmpty = true then
              (if eu = true then some (Event.unchanged (key_object kc k) rb) else none)
            else some (Event.changed (key_object kc k) (changedColumns cmp rb ra) rb ra
              (deltaMap (changedColumns cmp rb ra) rb ra))) =
        (if (changedColumns cmp ra rb).isEmpty = true then
              (if eu = true then some (Event.unchanged (key_object kc k) ra) else none)
            else some (Event.changed (key_object kc k) (changedColumns cmp ra rb) ra rb
              (deltaMap (changedColumns cmp ra rb) ra rb))).map swapEvent
      rw [changedColumns_symm cmp ra rb]
      by_cases hcc : (changedColumns cmp ra rb).isEmpty = true
      · have heq : ra = rb := hext ra rb rfl rfl (List.isEmpty_iff.mp hcc)
        subst heq
        simp only [if_pos hcc]
        cases eu with
        | false => rfl
        | true => rfl
      · rw [if_neg hcc, if_neg hcc, deltaMap_swap]
        rfl

theorem perIdxEvent_swap (cmp : List String) (eu : Bool) (in_a in_b : Option Row)
    (i : Nat)
    (hext : ∀ ra rb, in_a = some ra → in_b = some rb →
      changedColumns cmp ra rb = [] → ra = rb) :
    perIdxEvent cmp eu in_b in_a i = (perIdxEvent cmp eu in_a in_b i).map swapEvent := by
  cases in_a with
  | none =>
    cases in_b with
    | none => rfl
    | some rb => rfl
  | some ra =>
    cases in_b with
    | none => rfl
    | some rb =>
      show (if (changedColumns cmp rb ra).isEmpty = true then
              (if eu = true then some (Event.unchangedAt i rb) else none)
            else some (Event.changedAt i (changedColumns cmp rb ra) rb ra
              (deltaMap (changedColumns cmp rb ra) rb ra))) =
        (if (changedColumns cmp ra rb).isEmpty = true then
              (if eu = true then some (Event.unchangedAt i ra) else none)
            else some (Event.changedAt i (changedColumns cmp ra rb) ra rb
              (deltaMap (changedColumns cmp ra rb) ra rb))).map swapEvent
      rw [changedColumns_symm cmp ra rb]
      by_cases hcc : (changedColumns cmp ra rb).isEmpty = true
      · have heq : ra = rb := hext ra rb rfl rfl (List.isEmpty_iff.mp hcc)
        subst heq
        simp only [if_pos hcc]
        cases eu with
        | false => rfl
        | true => rfl
      · rw [if_neg hcc, if_neg hcc, deltaMap_swap]
        rfl

theorem perKeyCounts_swap (cmp : List String) (in_a in_b : Option Row) :
    perKeyCounts cmp in_b in_a = swapCounts (perKeyCounts cmp in_a in_b) := by
  cases in_a with
  | none =>
    cases in_b with
    | none => rfl
    | some rb => rfl
  | some ra =>
    cases in_b with
    | none => rfl
    | some rb =>
      show (if (changedColumns cmp rb ra).isEmpty = true then (⟨1, 0, 0, 0, 1⟩ : Counts)
            else ⟨1, 0, 0, 1, 0⟩) =
        swapCounts (if (changedColumns cmp ra rb).isEmpty = true then (⟨1, 0, 0, 0, 1⟩ : Counts)
            else ⟨1, 0, 0, 1, 0⟩)
      rw [changedColumns_symm cmp ra rb]
      by_cases hcc : (changedColumns cmp ra rb).isEmpty = true
      · simp only [if_pos hcc]
        rfl
      · simp only [if_neg hcc]
        rfl

theorem Counts.sumList_swap (l : List Counts) :
    Counts.sumList (l.map swapCounts) = swapCounts (Counts.sumList l) := by
  simp only [Counts.sumList, List.map_map]
  rfl

theorem changedKeys_map_swap : ∀ l : List Event,
    changedKeys (l.map swapEvent) = changedKeys l
  | [] => rfl
  | e :: rest => by
    have hrec := changedKeys_map_swap rest
    cases e <;> simp [changedKeys, swapEvent, List.filterMap_cons] <;>
      simpa [changedKeys] using hrec

theorem swapEvent_stats (c : Counts) :
    swapEvent (Event.stats c) = Event.stats (swapCounts c) := rfl

/-- **C8**: swapping the two sides swaps the diff — the swapped run emits
exactly the original event sequence with every `added` turned into the
`removed` event for the same key and vice versa, every `changed` event's
before/after rows and each delta's from/to values exchanged (`swapEvent`),
and the keys carrying `changed` events unchanged; this holds for the keyed
core on every valid keyed input and for the positional core on every input
whose headers pass the comparison-column check. -/
theorem c8_swap_symmetry :
    (∀ (a_header : List String) (a_records : List (List String)) (b_header : List String)
        (b_records : List (List String)) (options : DiffOptions) (cmp : List String),
      comparison_columns a_header b_header options.header_mode = .ok cmp →
      ValidKeyedSide a_header a_records options.key_columns →
      ValidKeyedSide b_header b_records options.key_columns →
      ∃ events : List Event,
        diff_rows_keyed a_header (indexedRows a_header 2 a_records) b_header
          (indexedRows b_header 2 b_records) options = .ok events ∧
        diff_rows_keyed b_header (indexedRows b_header 2 b_records) a_header
          (indexedRows a_header 2 a_records) options = .ok (events.map swapEvent) ∧
        changedKeys (events.map swapEvent) = changedKeys events) ∧
    (∀ (a_header : List String) (a_records : List (List String)) (b_header : List String)
        (b_records : List (List String)) (options : DiffOptions) (cmp : List String),
      comparison_columns a_header b_header options.header_mode = .ok cmp →
      ∃ events : List Event,
        diff_rows_positional a_header (indexedRows a_header 2 a_records) b_header
          (indexedRows b_header 2 b_records) options = .ok events ∧
        diff_rows_positional b_header (indexedRows b_header 2 b_records) a_header
          (indexedRows a_header 2 a_records) options = .ok (events.map swapEvent)) := by
  constructor
  · intro a_header a_records b_header b_records options cmp hcmp ha hb
    obtain ⟨handA, hkcA, hwA, hkvA, hndA⟩ := ha
    obtain ⟨handB, hkcB, hwB, hkvB, hndB⟩ := hb
    have hcov := comparison_columns_covers a_header b_header options.header_mode cmp hcmp
    have hcmp2 := comparison_columns_swap a_header b_header options.header_mode cmp hcmp
    have hakA : ∀ e ∈ indexedRows a_header 2 a_records, ∀ c ∈ options.key_columns,
        (assocGet e.2 c).getD "" ≠ "" := by
      intro e he c hc
      obtain ⟨rec, hrec, he2⟩ := indexedRows_mem he
      rw [he2]
      exact hkvA rec hrec c hc
    have hakB : ∀ e ∈ indexedRows b_header 2 b_records, ∀ c ∈ options.key_columns,
        (assocGet e.2 c).getD "" ≠ "" := by
      intro e he c hc
      obtain ⟨rec, hrec, he2⟩ := indexedRows_mem he
      rw [he2]
      exact hkvB rec hrec c hc
    have hndA' : ((indexedRows a_header 2 a_records).map
        (fun e => key_tuple e.2 options.key_columns)).Nodup := by
      rw [indexedRows_map_key]
      exact hndA
    have hndB' : ((indexedRows b_header 2 b_records).map
        (fun e => key_tuple e.2 options.key_columns)).Nodup := by
      rw [indexedRows_map_key]
      exact hndB
    have h1 := diff_rows_keyed_char a_header b_header (indexedRows a_header 2 a_records)
      (indexedRows b_header 2 b_records) options cmp hcmp
      (fun c hc => ⟨hkcA c hc, hkcB c hc⟩) hakA hakB hndA' hndB'
    have h2 := diff_rows_keyed_char b_header a_header (indexedRows b_header 2 b_records)
      (indexedRows a_header 2 a_records) options cmp hcmp2
      (fun c hc => ⟨hkcB c hc, hkcA c hc⟩) hakB hakA hndB' hndA'
    have hext : ∀ (k : List String) (ra rb : Row),
        (findRow (indexedRows a_header 2 a_records) options.key_columns k).map
          (fun e => e.2) = some ra →
        (findRow (indexedRows b_header 2 b_records) options.key_columns k).map
          (fun e => e.2) = some rb →
        changedColumns cmp ra rb = [] → ra = rb := by
      intro k ra rb hfa hfb hnil
      cases hfa' : findRow (indexedRows a_header 2 a_records) options.key_columns k with
      | none => rw [hfa'] at hfa; exact Option.noConfusion hfa
      | some ea =>
        rw [hfa'] at hfa
        cases hfb' : findRow (indexedRows b_header 2 b_records) options.key_columns k with
        | none => rw [hfb'] at hfb; exact Option.noConfusion hfb
        | some eb =>
          rw [hfb'] at hfb
          have hra : ea.2 = ra := Option.some.inj hfa
          have hrb : eb.2 = rb := Option.some.inj hfb
          rw [findRow] at hfa' hfb'
          obtain ⟨recA, hrecA, heA⟩ := indexedRows_mem (List.mem_of_find?_eq_some hfa')
          obtain ⟨recB, hrecB, heB⟩ := indexedRows_mem (List.mem_of_find?_eq_some hfb')
          rw [← hra, ← hrb, heA, heB] at hnil ⊢
          refine mkRow_ext_of_cmp a_header b_header cmp recA recB hcov.1 hcov.2 ?_
          intro c hc
          rw [changedColumns] at hnil
          have hnc := List.filter_eq_nil_iff.mp hnil c hc
          simpa using hnc
    have hkeys : sortKeys (((indexedRows b_header 2 b_records).map
          (fun e => key_tuple e.2 options.key_columns) ++
        (indexedRows a_header 2 a_records).map
          (fun e => key_tuple e.2 options.key_columns)).dedup) =
      sortKeys (((indexedRows a_header 2 a_records).map
          (fun e => key_tuple e.2 options.key_columns) ++
        (indexedRows b_header 2 b_records).map
          (fun e => key_tuple e.2 options.key_columns)).dedup) :=
      sortKeys_eq_of_perm (List.Perm.dedup List.perm_append_comm)
    rw [hkeys] at h2
    refine ⟨_, h1, ?_, changedKeys_map_swap _⟩
    rw [h2]
    refine congrArg Except.ok ?_
    simp only [List.map_cons, List.map_append, List.map_nil, swapEvent_stats]
    refine congrArg₂ List.cons rfl (congrArg₂ List.append ?_ ?_)
    · rw [List.map_filterMap]
      refine filterMap_congr_mem _ _ _ ?_
      intro k _
      exact perKeyEvent_swap options.key_columns cmp options.emit_unchanged _ _ k
        (hext k)
    · refine congrArg (fun c => [Event.stats c]) ?_
      rw [← Counts.sumList_swap, List.map_map]
      refine congrArg Counts.sumList ?_
      refine List.map_congr_left ?_
      intro k _
      exact perKeyCounts_swap cmp _ _
  · intro a_header a_records b_header b_records options cmp hcmp
    have hcov := comparison_columns_covers a_header b_header options.header_mode cmp hcmp
    have hcmp2 := comparison_columns_swap a_header b_header options.header_mode cmp hcmp
    have h1 := diff_rows_positional_char a_header b_header
      (indexedRows a_header 2 a_records) (indexedRows b_header 2 b_records) options cmp hcmp
    have h2 := diff_rows_positional_char b_header a_header
      (indexedRows b_header 2 b_records) (indexedRows a_header 2 a_records) options cmp hcmp2
    rw [Nat.max_comm ((indexedRows b_header 2 b_records).length)
      ((indexedRows a_header 2 a_records).length)] at h2
    have hext : ∀ (i : Nat) (ra rb : Row),
        ((indexedRows a_header 2 a_records)[i]?).map (fun e => e.2) = some ra →
        ((indexedRows b_header 2 b_records)[i]?).map (fun e => e.2) = some rb →
        changedColumns cmp ra rb = [] → ra = rb := by
      intro i ra rb hfa hfb hnil
      cases hfa' : (indexedRows a_header 2 a_records)[i]? with
      | none => rw [hfa'] at hfa; exact Option.noConfusion hfa
      | some ea =>
        rw [hfa'] at hfa
        cases hfb' : (indexedRows b_header 2 b_records)[i]? with
        | none => rw [hfb'] at hfb; exact Option.noConfusion hfb
        | some eb =>
          rw [hfb'] at hfb
          have hra : ea.2 = ra := Option.some.inj hfa
          have hrb : eb.2 = rb := Option.some.inj hfb
          obtain ⟨recA, hrecA, heA⟩ := indexedRows_mem (List.getElem?_mem hfa')
          obtain ⟨recB, hrecB, heB⟩ := indexedRows_mem (List.getElem?_mem hfb')
          rw [← hra, ← hrb, heA, heB] at hnil ⊢
          refine mkRow_ext_of_cmp a_header b_header cmp recA recB hcov.1 hcov.2 ?_
          intro c hc
          rw [changedColumns] at hnil
          have hnc := List.filter_eq_nil_iff.mp hnil c hc
          simpa using hnc
    refine ⟨_, h1, ?_⟩
    rw [h2]
    refine congrArg Except.ok ?_
    simp only [List.map_cons, List.map_append, List.map_nil, swapEvent_stats]
    refine congrArg₂ List.cons rfl (congrArg₂ List.append ?_ ?_)
    · rw [List.map_filterMap]
      refine filterMap_congr_mem _ _ _ ?_
      intro i _
      exact perIdxEvent_swap cmp options.emit_unchanged _ _ (i + 2) (hext i)
    · refine congrArg (fun c => [Event.stats c]) ?_
      rw [← Counts.sumList_swap, List.map_map]
      refine congrArg Counts.sumList ?_
      refine List.map_congr_left ?_
      intro i _
      exact perKeyCounts_swap cmp _ _

theorem c8_swap_symmetry_witness :
    ∃ events : List Event,
      diff_rows_keyed ["id", "name"]
          (indexedRows ["id", "name"] 2 [["1", "Alice"]]) ["id", "name"]
          (indexedRows ["id", "name"] 2 [["1", "Alicia"], ["2", "Bob"]])
          ⟨["id"], .strict, true⟩ = .ok events ∧
      diff_rows_keyed ["id", "name"]
          (indexedRows ["id", "name"] 2 [["1", "Alicia"], ["2", "Bob"]]) ["id", "name"]
          (indexedRows ["id", "name"] 2 [["1", "Alice"]])
          ⟨["id"], .strict, true⟩ = .ok (events.map swapEvent) ∧
      changedKeys (events.map swapEvent) = changedKeys events :=
  c8_swap_symmetry.1 ["id", "name"] [["1", "Alice"]] ["id", "name"]
    [["1", "Alicia"], ["2", "Bob"]] ⟨["id"], .strict, true⟩ ["id", "name"]
    (by decide) (by decide) (by decide)
